import Mathlib

/-!
Verification development for the EyeTrackingAlgorithms repository.

This file shallowly embeds the parts of the code base that the verified
properties talk about:

* `Config/GazeEventTypeEnum.py` — the label enumeration;
* `Utils/array_utils.py` — `get_chunk_indices` (np.split on change points);
* `Detectors/BaseDetector.py` — the monocular/binocular detection pipeline,
  sampling-rate estimation, blink detection, short-chunk suppression and
  proximal-chunk merging;
* `Detectors/IVTDetector.py` — the velocity-threshold candidate labeling;
* `Detectors/EngbertDetector.py` — the axial velocity computation;
* `GazeEvents/BaseEvent.py`, `GazeEvents/BaseGazeEvent.py` and the concrete
  event classes — construction-time validation;
* `Utils/pixel_utils.py` — `calculate_azimuth`;
* `Utils/visual_angle_utils.py` — pixel/visual-angle conversions.

Modelling conventions: machine floats that carry data through the detector
pipeline are modelled as `Option ℚ` (`none` is NaN); timestamps and event
samples that need NaN/±inf distinctions are modelled by an explicit `PFloat`
type; the trigonometric utilities are modelled over `ℝ`.  Python exceptions
are modelled with `Except PyError`.  Numpy in-place mutation relevant to the
frame property is modelled by an explicit store of float arrays.
-/

set_option linter.unusedVariables false

/-- Event-type labels (`Config/GazeEventTypeEnum.py`): an `IntEnum` with the
values UNDEFINED=0, FIXATION=1, SACCADE=2, PSO=3, SMOOTH_PURSUIT=4, BLINK=5.
Only equality of the numeric values matters to the embedded code, so the
enumeration is modelled as an inductive with decidable equality. -/
inductive GazeEventTypeEnum where
  | UNDEFINED
  | FIXATION
  | SACCADE
  | PSO
  | SMOOTH_PURSUIT
  | BLINK
deriving DecidableEq, Repr, Inhabited

/-- Python exception classes raised by the embedded code. -/
inductive PyError where
  | valueError (msg : String)
  | runtimeError (msg : String)
  | typeError (msg : String)
  | indexError (msg : String)
  | assertionError (msg : String)
deriving DecidableEq, Repr

/-- A machine-float coordinate: `none` models NaN (missing gaze data). -/
abbrev Coord := Option ℚ

/-- Python `str.upper` (`String.toUpper`), expressed as a map over the
character list so that it evaluates definitionally. -/
def pyToUpper (s : String) : String := ⟨s.data.map Char.toUpper⟩

/-- Python `str.lower` (`String.toLower`), expressed as a map over the
character list so that it evaluates definitionally. -/
def pyToLower (s : String) : String := ⟨s.data.map Char.toLower⟩

/-- Python's built-in `round` (also `np.round`): round half to even. -/
def pyRound (q : ℚ) : ℤ :=
  let f := ⌊q⌋
  let r := q - (f : ℚ)
  if r < 1/2 then f
  else if 1/2 < r then f + 1
  else if f % 2 = 0 then f else f + 1

/-- `np.diff`: differences of consecutive elements. -/
def diffList (l : List ℚ) : List ℚ :=
  (l.zip l.tail).map fun p => p.2 - p.1

/-- Insert into a sorted list (helper for the sort underlying `np.median`). -/
def insertSorted (x : ℚ) : List ℚ → List ℚ
  | [] => [x]
  | y :: ys => if x ≤ y then x :: y :: ys else y :: insertSorted x ys

/-- Sort a list of rationals ascending (the sort underlying `np.median`). -/
def sortQ (l : List ℚ) : List ℚ :=
  l.foldr insertSorted []

/-- `np.median` on a list of (non-NaN) values: middle element of the sorted
list, or the mean of the two middle elements for even length.  The empty case
(unreachable behind the length-≥-2 guard of `_calculate_sampling_rate`)
returns 0 as a junk value. -/
def medianQ (l : List ℚ) : ℚ :=
  let s := sortQ l
  let n := s.length
  if n = 0 then 0
  else if n % 2 = 1 then s.getD (n / 2) 0
  else (s.getD (n / 2 - 1) 0 + s.getD (n / 2) 0) / 2

/-- `BaseDetector._calculate_sampling_rate`: `1000 / median(diff(ms))`, raising
`ValueError` for fewer than 2 timestamps and `RuntimeError` when the result is
not finite.  Over IEEE floats `1000/median` is non-finite exactly when the
median of the differences is `0` (giving ±inf) or NaN (when some timestamp is
NaN, since `np.diff`/`np.median` propagate NaN); both cases fail the
`np.isfinite` check and raise `RuntimeError`. -/
def calculate_sampling_rate (ms : List Coord) : Except PyError ℚ :=
  if ms.length < 2 then .error (.valueError "timestamps must be of length at least 2")
  else if ms.any Option.isNone then .error (.runtimeError "Error calculating sampling rate")
  else
    let md := medianQ (diffList (ms.filterMap id))
    if md = 0 then .error (.runtimeError "Error calculating sampling rate")
    else .ok (1000 / md)

/-- The change points of `Utils/array_utils.get_chunk_indices`:
`np.nonzero(np.diff(arr))[0] + 1`, i.e. every index `i+1` whose value differs
from the value at `i`. -/
def split_points (arr : List GazeEventTypeEnum) : List ℕ :=
  (List.range (arr.length - 1)).filterMap fun i =>
    if arr.getD i .UNDEFINED ≠ arr.getD (i + 1) .UNDEFINED then some (i + 1) else none

/-- `np.split`: cut a list at the given (ascending, absolute) positions. -/
def np_split : List ℕ → List ℕ → List (List ℕ)
  | idxs, [] => [idxs]
  | idxs, p :: ps => idxs.take p :: np_split (idxs.drop p) (ps.map (· - p))
termination_by _ pts => pts.length
decreasing_by simp

/-- `Utils/array_utils.get_chunk_indices`: the index ranges of the maximal
runs of identical values (`np.split(np.arange(len(arr)), change points)`). -/
def get_chunk_indices (arr : List GazeEventTypeEnum) : List (List ℕ) :=
  np_split (List.range arr.length) (split_points arr)

/-- `arr_copy[chunk] = v`: overwrite the given index list with one value. -/
def setIndices (arr : List GazeEventTypeEnum) (idxs : List ℕ) (v : GazeEventTypeEnum) :
    List GazeEventTypeEnum :=
  idxs.foldl (fun a i => a.set i v) arr

/-- `BaseDetector._set_short_chunks_as_undefined`: every chunk of identical
values strictly shorter than `minS` samples is overwritten with UNDEFINED.
`minS` stands for `self._minimum_samples_within_event()`. -/
def set_short_chunks_as_undefined (minS : ℤ) (arr : List GazeEventTypeEnum) :
    List GazeEventTypeEnum :=
  (get_chunk_indices arr).foldl
    (fun acc chunk =>
      if (chunk.length : ℤ) < minS then setIndices acc chunk .UNDEFINED else acc)
    arr

/-- One iteration of the loop in
`BaseDetector._merge_proximal_chunks_of_identical_values`: chunk `i` of the
original array is skipped when it is first/last, long enough, of an exempted
value, or when the first elements of the neighbouring chunks differ in the
current (partially merged) array `acc`; otherwise it is overwritten with the
left neighbour's current first value. -/
def mergeStep (minS : ℤ) (allow : List GazeEventTypeEnum) (chunks : List (List ℕ))
    (acc : List GazeEventTypeEnum) (i : ℕ) : List GazeEventTypeEnum :=
  if i = 0 ∨ i = chunks.length - 1 then acc
  else
    let middle := chunks.getD i []
    if minS ≤ (middle.length : ℤ) then acc
    else
      let mv := acc.getD (middle.headD 0) .UNDEFINED
      if mv ∈ allow then acc
      else
        let lv := acc.getD ((chunks.getD (i - 1) []).headD 0) .UNDEFINED
        let rv := acc.getD ((chunks.getD (i + 1) []).headD 0) .UNDEFINED
        if lv ≠ rv then acc
        else setIndices acc middle lv

/-- `BaseDetector._merge_proximal_chunks_of_identical_values`: iterate
`mergeStep` over the chunks computed from the original array, mutating a copy.
`minS` stands for `self._minimum_samples_between_identical_events()`; `allow`
models `allow_short_chunks_of` (the `None`/empty-set default is `[]`). -/
def merge_proximal_chunks (minS : ℤ) (allow : List GazeEventTypeEnum)
    (arr : List GazeEventTypeEnum) : List GazeEventTypeEnum :=
  let chunks := get_chunk_indices arr
  (List.range chunks.length).foldl (mergeStep minS allow chunks) arr

/-- `BaseDetector._minimum_samples_within_event`: `round(5 * sr / 1000)`. -/
def minimum_samples_within_event (sr : ℚ) : ℤ :=
  pyRound (5 * sr / 1000)

/-- `BaseDetector._minimum_samples_between_identical_events`:
`round(5 * sr / 1000)`. -/
def minimum_samples_between_identical_events (sr : ℚ) : ℤ :=
  pyRound (5 * sr / 1000)

/-- `BaseDetector._is_missing_value`: equality with the configured missing
value, or an is-NaN test when the missing value is NaN (`missing = none`).
Comparing a NaN sample with a non-NaN sentinel is `False`, which the
`Option` equality reproduces. -/
def is_missing_value (missing : Option ℚ) (v : Coord) : Bool :=
  match missing with
  | none => v.isNone
  | some m => v == some m

/-- Numpy boolean-mask assignment `arr[mask] = v`: raises `IndexError` when
the boolean mask's length does not match the indexed array's length. -/
def maskedAssign (arr : List GazeEventTypeEnum) (mask : List Bool) (v : GazeEventTypeEnum) :
    Except PyError (List GazeEventTypeEnum) :=
  if mask.length ≠ arr.length then
    .error (.indexError "boolean index did not match indexed array along dimension 0")
  else
    .ok ((arr.zip mask).map fun p => if p.2 then v else p.1)

/-- The blink-expansion loop of `BaseDetector._identify_blink_candidates`:
every index currently labelled BLINK dilates to the slice
`[max 0 (b - samples), min len (b + samples))` with
`samples = round(expand_ms * sr / 1000)`.  (Python's negative-index slice
semantics are not modelled: a negative slice bound would need a negative
sampling rate, which no caller in scope produces.) -/
def expandBlinks (sr : ℚ) (expand_ms : ℤ) (c : List GazeEventTypeEnum) :
    List GazeEventTypeEnum :=
  let samples := pyRound ((expand_ms : ℚ) * sr / 1000)
  let blinkIdx := (List.range c.length).filter fun i => c.getD i .UNDEFINED = .BLINK
  blinkIdx.foldl
    (fun acc b =>
      let bstart : ℤ := max 0 ((b : ℤ) - samples)
      let bstop : ℤ := min (c.length : ℤ) ((b : ℤ) + samples)
      acc.mapIdx fun i v => if bstart ≤ (i : ℤ) ∧ (i : ℤ) < bstop then .BLINK else v)
    c

/-- `BaseDetector._identify_blink_candidates`: mark missing samples BLINK,
suppress short chunks, merge proximal chunks, optionally expand, then NaN the
coordinates at BLINK positions (on copies of `x` and `y`). -/
def identify_blink_candidates (sr : ℚ) (missing : Option ℚ) (x y : List Coord)
    (candidates : List GazeEventTypeEnum) (expand_blink_by_ms : ℤ) :
    Except PyError (List Coord × List Coord × List GazeEventTypeEnum) :=
  if expand_blink_by_ms < 0 then
    .error (.valueError "Argument expand_blink_by_ms must be non-negative")
  else
    let missMask := (x.zip y).map fun p =>
      is_missing_value missing p.1 || is_missing_value missing p.2
    match maskedAssign candidates missMask .BLINK with
    | .error e => .error e
    | .ok c1 =>
      let c2 := set_short_chunks_as_undefined (minimum_samples_within_event sr) c1
      let c3 := merge_proximal_chunks (minimum_samples_between_identical_events sr) [] c2
      let c4 := if 0 < expand_blink_by_ms then expandBlinks sr expand_blink_by_ms c3 else c3
      let xCopy := (x.zip c4).map fun p => if p.2 = .BLINK then none else p.1
      let yCopy := (y.zip c4).map fun p => if p.2 = .BLINK then none else p.1
      .ok (xCopy, yCopy, c4)

/-- `BaseDetector._verify_inputs`.  In this embedding the inputs are 1-D lists,
so the `is_one_dimensional` checks hold vacuously and `reshape(-1)` is the
identity; the length check is modelled as in the source. -/
def verify_inputs (t : List Coord) (x y : List Coord) :
    Except PyError (List Coord × List Coord × List Coord) :=
  if t.length ≠ x.length ∨ t.length ≠ y.length ∨ x.length ≠ y.length then
    .error (.valueError "t, x and y must have the same length")
  else
    .ok (t, x, y)

/-- The detector-specific `_identify_gaze_event_candidates` hook: given the
estimated sampling rate, the (blink-masked) coordinates and the current
candidates, produce new candidates or raise. -/
abbrev IdentifyFn :=
  ℚ → List Coord → List Coord → List GazeEventTypeEnum →
    Except PyError (List GazeEventTypeEnum)

/-- The `except ValueError` handler of `detect_candidates_monocular`: a
`ValueError` is caught (logged) and the current value of the local
`candidates` is returned; every other exception propagates. -/
def handleCaught (candidates : List GazeEventTypeEnum) (e : PyError) :
    Except PyError (List GazeEventTypeEnum) :=
  match e with
  | .valueError _ => .ok candidates
  | e => .error e

/-- `BaseDetector.detect_candidates_monocular`: initialize the candidates to
all-UNDEFINED of `x`'s length (`np.full_like(x, UNDEFINED)`), then run
validation, sampling-rate estimation, blink detection, the detector-specific
candidate labeling, short-chunk suppression and proximal merging inside a
`try/except ValueError` that returns the current candidates on a caught
error. -/
def detect_candidates_monocular (identify : IdentifyFn) (missing : Option ℚ)
    (t : List Coord) (x y : List Coord) (expand_blink_by_ms : ℤ) :
    Except PyError (List GazeEventTypeEnum) :=
  let candidates0 : List GazeEventTypeEnum := List.replicate x.length .UNDEFINED
  match verify_inputs t x y with
  | .error e => handleCaught candidates0 e
  | .ok (t1, x1, y1) =>
    match calculate_sampling_rate t1 with
    | .error e => handleCaught candidates0 e
    | .ok sr =>
      match identify_blink_candidates sr missing x1 y1 candidates0 expand_blink_by_ms with
      | .error e => handleCaught candidates0 e
      | .ok (x2, y2, c1) =>
        match identify sr x2 y2 c1 with
        | .error e => handleCaught c1 e
        | .ok c2 =>
          let c3 := set_short_chunks_as_undefined (minimum_samples_within_event sr) c2
          let c4 :=
            merge_proximal_chunks (minimum_samples_between_identical_events sr) [] c3
          .ok c4

/-- `np.diff` on a float array with NaN: NaN propagates through subtraction. -/
def diffO (l : List Coord) : List Coord :=
  (l.zip l.tail).map fun p =>
    match p.1, p.2 with
    | some a, some b => some (b - a)
    | _, _ => none

/-- `IVTDetector._identify_gaze_event_candidates`: per-sample velocity
`sqrt(diff_x² + diff_y²) / 2` (a hard-coded 2 ms inter-sample interval),
labelling below-threshold samples FIXATION and the rest SACCADE via boolean
masks.  Since `IVTDetector.__init__` rejects non-positive thresholds, the
comparisons `sqrt(s)/2 < thr` and `sqrt(s)/2 ≥ thr` are encoded by the exactly
equivalent squared forms `s < (2·thr)²` and `s ≥ (2·thr)²`; comparisons whose
velocity is NaN are `False`, as in IEEE arithmetic. -/
def IVT_identify (velocity_threshold : ℚ) : IdentifyFn := fun _sr x y candidates =>
  let dx := diffO x
  let dy := diffO y
  let sq := (dx.zip dy).map fun p =>
    match p.1, p.2 with
    | some a, some b => some (a ^ 2 + b ^ 2)
    | _, _ => none
  let ltMask := sq.map fun s =>
    match s with
    | some v => decide (v < (2 * velocity_threshold) ^ 2)
    | none => false
  let geMask := sq.map fun s =>
    match s with
    | some v => decide ((2 * velocity_threshold) ^ 2 ≤ v)
    | none => false
  match maskedAssign candidates ltMask .FIXATION with
  | .error e => .error e
  | .ok c1 =>
    match maskedAssign c1 geMask .SACCADE with
    | .error e => .error e
    | .ok c2 => .ok c2

/-- `IVTDetector.__init__`: rejects a non-positive velocity threshold. -/
def IVTDetector_init (velocity_threshold : ℚ) : Except PyError ℚ :=
  if velocity_threshold ≤ 0 then .error (.valueError "all parameters must be positive")
  else .ok velocity_threshold

/-- Python keyword-argument binding for `detect_candidates_monocular(self, t,
x, y, expand_blink_by_ms=0)`: all of `t`, `x`, `y` are required, so a call
that omits one raises `TypeError` before the function body runs. -/
def monocular_kwargs_call (identify : IdentifyFn) (missing : Option ℚ)
    (t : Option (List Coord)) (x y : Option (List Coord)) (expand_blink_by_ms : ℤ) :
    Except PyError (List GazeEventTypeEnum) :=
  match t, x, y with
  | some tv, some xv, some yv =>
      detect_candidates_monocular identify missing tv xv yv expand_blink_by_ms
  | _, _, _ =>
      .error (.typeError "detect_candidates_monocular missing 1 required positional argument: t")

/-- `left_cand or right_cand` over `IntEnum` values: Python `or` returns the
left operand when it is truthy (numeric value nonzero, i.e. not UNDEFINED) and
the right operand otherwise. -/
def pyOrLabel (l r : GazeEventTypeEnum) : GazeEventTypeEnum :=
  if l = .UNDEFINED then r else l

/-- `BaseDetector.detect_candidates_binocular`: runs the monocular detection
per eye and fuses the label lists according to `detect_by`.  The source's
per-eye calls (`self.detect_candidates_monocular(x=..., y=...,
expand_blink_by_ms=...)`) pass no `t` argument, which the binding model
renders as `t := none`. -/
def detect_candidates_binocular (identify : IdentifyFn) (missing : Option ℚ)
    (t : List Coord) (x_l y_l x_r y_r : List Coord) (expand_blink_by_ms : ℤ)
    (detect_by : String) : Except PyError (List GazeEventTypeEnum) :=
  match monocular_kwargs_call identify missing none (some x_l) (some y_l) expand_blink_by_ms with
  | .error e => .error e
  | .ok leftCandidates =>
    match monocular_kwargs_call identify missing none (some x_r) (some y_r) expand_blink_by_ms with
    | .error e => .error e
    | .ok rightCandidates =>
      let db := pyToLower detect_by
      if db = "left" then .ok leftCandidates
      else if db = "right" then .ok rightCandidates
      else if leftCandidates.length ≠ rightCandidates.length then
        .error (.assertionError "len(left_candidates) == len(right_candidates)")
      else if db = "both" ∨ db = "and" then
        .ok ((leftCandidates.zip rightCandidates).map fun p =>
          if p.1 = p.2 then p.1 else .UNDEFINED)
      else if db = "either" ∨ db = "or" then
        .ok ((leftCandidates.zip rightCandidates).map fun p => pyOrLabel p.1 p.2)
      else .error (.valueError "invalid value for detect_by")

/-- `EngbertDetector._calculate_axial_velocity`: with `ws` the derivation
window size, positions `t ∈ [ws, len - ws)` receive
`(sum(arr[t+1 : t+ws+1]) - sum(arr[t-ws : t])) * (sr / (2*(ws+1)))` and every
other position stays NaN; a non-finite stored sampling rate (`sr = none`,
e.g. before any detection ran) raises `RuntimeError`. -/
def calculate_axial_velocity (sr : Option ℚ) (ws : ℕ) (arr : List ℚ) :
    Except PyError (List (Option ℚ)) :=
  match sr with
  | none => .error (.runtimeError "Invalid sampling rate, cannot calculate velocity")
  | some s =>
    let n := arr.length
    let start : List (Option ℚ) := List.replicate n none
    .ok ((List.range' ws (n - 2 * ws)).foldl
      (fun vel t =>
        let sumBefore := ((arr.drop (t - ws)).take ws).sum
        let sumAfter := ((arr.drop (t + 1)).take ws).sum
        vel.set t (some ((sumAfter - sumBefore) * (s / (2 * ((ws : ℚ) + 1))))))
      start)

/-- Per-index specification of the Engbert axial velocity, written from the
claim: interior indices get the difference of the window sums multiplied by
`sr / (2*(window+1))`, and the first/last `window` indices are NaN. -/
def engbertVelocitySpecEntry (s : ℚ) (ws : ℕ) (arr : List ℚ) (t : ℕ) : Option ℚ :=
  if ws ≤ t ∧ t + ws < arr.length then
    some ((((Finset.Ico (t + 1) (t + ws + 1)).sum fun i => arr.getD i 0) -
           ((Finset.Ico (t - ws) t).sum fun i => arr.getD i 0)) *
          (s / (2 * ((ws : ℚ) + 1))))
  else none

/-- A machine float for the event-construction checks: NaN, ±inf or a finite
rational value. -/
inductive PFloat where
  | nan
  | inf
  | ninf
  | val (q : ℚ)
deriving DecidableEq, Repr

/-- `np.isnan`. -/
def PFloat.isnan : PFloat → Bool
  | .nan => true
  | _ => false

/-- `np.isinf` (true for both infinities). -/
def PFloat.isinf : PFloat → Bool
  | .inf => true
  | .ninf => true
  | _ => false

/-- `np.isfinite`. -/
def PFloat.isfinite : PFloat → Bool
  | .val _ => true
  | _ => false

/-- IEEE `<`: any comparison involving NaN is false. -/
def PFloat.lt : PFloat → PFloat → Bool
  | .nan, _ => false
  | _, .nan => false
  | .ninf, .ninf => false
  | .ninf, _ => true
  | _, .ninf => false
  | .inf, _ => false
  | _, .inf => true
  | .val a, .val b => decide (a < b)

/-- IEEE `≤`: any comparison involving NaN is false. -/
def PFloat.le : PFloat → PFloat → Bool
  | .nan, _ => false
  | _, .nan => false
  | .ninf, _ => true
  | _, .ninf => false
  | _, .inf => true
  | .inf, _ => false
  | .val a, .val b => decide (a ≤ b)

/-- `BaseEvent.__init__` (`GazeEvents/BaseEvent.py`): requires at least
`_MINIMUM_SAMPLES_PER_EVENT = 2` samples, then no NaN or infinite timestamps,
then no negative timestamps; each violation raises `ValueError`. -/
def BaseEvent_init_check (timestamps : List PFloat) : Except PyError Unit :=
  if timestamps.length < 2 then
    .error (.valueError "event must be at least 2 samples long")
  else if timestamps.any PFloat.isnan || timestamps.any PFloat.isinf then
    .error (.valueError "array timestamps must not contain NaN or infinite values")
  else if timestamps.any (fun v => v.lt (.val 0)) then
    .error (.valueError "array timestamps must not contain negative values")
  else .ok ()

/-- `BaseGazeEvent.__init__` (`GazeEvents/BaseGazeEvent.py`): requires a
finite strictly positive viewer distance and equal-length timestamp/x/y
arrays, then runs the `BaseEvent` checks.  The subsequent velocity
computation (`pixel_utils.calculate_velocities`) raises nothing further: its
length assertion is already guaranteed and `temporal_derivative` is called
with equal-length 1-D arrays, `deg=1 ≥ 0` and `time_coeff=1000 > 0`. -/
def BaseGazeEvent_init_check (timestamps x y : List PFloat) (viewer_distance : PFloat) :
    Except PyError Unit :=
  if !viewer_distance.isfinite || viewer_distance.le (.val 0) then
    .error (.valueError "viewer_distance must be a positive finite number")
  else if timestamps.length ≠ x.length ∨ timestamps.length ≠ y.length then
    .error (.valueError "Arrays of timestamps, x and y must have the same length")
  else BaseEvent_init_check timestamps

/-- Constructing a `BlinkEvent` runs only the `BaseEvent` checks. -/
def BlinkEvent_construct (timestamps : List PFloat) : Except PyError Unit :=
  BaseEvent_init_check timestamps

/-- Constructing a `FixationEvent`: the `BaseGazeEvent` checks; the pupil
array is stored without validation. -/
def FixationEvent_construct (timestamps x y pupil : List PFloat)
    (viewer_distance : PFloat) : Except PyError Unit :=
  BaseGazeEvent_init_check timestamps x y viewer_distance

/-- Constructing a `SaccadeEvent`: the `BaseGazeEvent` checks. -/
def SaccadeEvent_construct (timestamps x y : List PFloat)
    (viewer_distance : PFloat) : Except PyError Unit :=
  BaseGazeEvent_init_check timestamps x y viewer_distance

/-- The claim-side violation predicate for timestamp-only events: fewer than
2 samples, a NaN or infinite timestamp, or a negative timestamp. -/
def timestampsViolation (timestamps : List PFloat) : Prop :=
  timestamps.length < 2 ∨
    (∃ v ∈ timestamps, v.isnan = true ∨ v.isinf = true) ∨
    (∃ v ∈ timestamps, v.lt (.val 0) = true)

/-- The claim-side violation predicate for gaze-bearing events: a timestamp
violation, a viewer distance that is not strictly positive and finite, or
timestamp/x/y arrays of differing lengths. -/
def gazeViolation (timestamps x y : List PFloat) (d : PFloat) : Prop :=
  timestampsViolation timestamps ∨
    ¬(d.isfinite = true ∧ (PFloat.val 0).lt d = true) ∨
    ¬(timestamps.length = x.length ∧ timestamps.length = y.length)

instance (timestamps : List PFloat) : Decidable (timestampsViolation timestamps) := by
  unfold timestampsViolation
  infer_instance

instance (timestamps x y : List PFloat) (d : PFloat) :
    Decidable (gazeViolation timestamps x y d) := by
  unfold gazeViolation
  infer_instance

/-- numpy `arctan2(y, x)`: quadrant-aware arctangent.  (Signed zeros are not
modelled; `arctan2(+0, +0) = 0`, which is the value numpy returns for the
coordinates produced by subtracting a point from itself.) -/
noncomputable def arctan2 (y x : ℝ) : ℝ :=
  if 0 < x then Real.arctan (y / x)
  else if x < 0 then
    (if 0 ≤ y then Real.arctan (y / x) + Real.pi else Real.arctan (y / x) - Real.pi)
  else
    if 0 < y then Real.pi / 2
    else if y < 0 then -(Real.pi / 2)
    else 0

/-- Python's float `%`: `a - b * floor(a / b)` (the result has the divisor's
sign; callers here use the positive divisor `2π`). -/
noncomputable def pyMod (a b : ℝ) : ℝ :=
  a - b * (⌊a / b⌋ : ℤ)

/-- `Utils/pixel_utils.calculate_azimuth`: counter-clockwise angle of the
vector p1→p2 against the chosen reference direction, normalized into
`[0, 2π)` (or `[0, 360)` after `np.rad2deg`).  An unrecognized
`zero_direction` (after upper-casing) raises `ValueError`.  The
`_is_valid_pixel` finiteness test holds for every real coordinate, so the
NaN early-return is unreachable in this model. -/
noncomputable def calculate_azimuth (p1 p2 : ℝ × ℝ) (zero_direction : String)
    (use_radians : Bool) : Except PyError ℝ :=
  let zd := pyToUpper zero_direction
  if zd ∉ ["E", "W", "S", "N"] then
    .error (.valueError "zero_direction must be one of E W S N")
  else
    let angleRad := arctan2 (p1.2 - p2.2) (p2.1 - p1.1)
    let adjusted :=
      if zd = "W" then angleRad + Real.pi
      else if zd = "S" then angleRad + Real.pi / 2
      else if zd = "N" then angleRad - Real.pi / 2
      else angleRad
    let normalized := pyMod adjusted (2 * Real.pi)
    .ok (if use_radians then normalized else normalized * (180 / Real.pi))

/-- `Utils/visual_angle_utils.visual_angle_to_pixels`:
`2 * d * tan(deg2rad(|deg| / 2)) / pixel_size`, with
`np.deg2rad(x) = x * π / 180`.  The NaN early-return for a non-finite `deg`
is unreachable over `ℝ`. -/
noncomputable def visual_angle_to_pixels (deg d pixel_size : ℝ) : ℝ :=
  let half_edge := d * Real.tan ((|deg| / 2) * Real.pi / 180)
  2 * half_edge / pixel_size

/-- `Utils/visual_angle_utils.pixels_to_visual_angle`:
`arctan(num_px * pixel_size / d)`, converted to degrees unless `use_radians`;
raises `ValueError` when any argument is negative.  The NaN early-return for
non-finite arguments is unreachable over `ℝ`. -/
noncomputable def pixels_to_visual_angle (num_px d pixel_size : ℝ)
    (use_radians : Bool) : Except PyError ℝ :=
  if num_px < 0 ∨ d < 0 ∨ pixel_size < 0 then
    .error (.valueError "arguments num_px, d and pixel_size must be non-negative numbers")
  else
    let angle := Real.arctan (num_px * pixel_size / d)
    .ok (if use_radians then angle else angle * (180 / Real.pi))

/-- A reference into the store of float arrays (a numpy array object). -/
abbrev Ref := ℕ

/-- The store of float arrays, modelling numpy buffers that Python variables
alias.  `arrs.length` is the next fresh reference. -/
structure FloatStore where
  arrs : List (List Coord)

/-- Dereference (a missing reference yields the empty array; the theorems
below only use valid references). -/
def FloatStore.readRef (s : FloatStore) (r : Ref) : List Coord :=
  s.arrs.getD r []

/-- `arr.copy()` / allocation of a fresh array: append a new buffer. -/
def FloatStore.allocRef (s : FloatStore) (v : List Coord) : FloatStore × Ref :=
  (⟨s.arrs ++ [v]⟩, s.arrs.length)

/-- An in-place write (`arr[mask] = nan`): replace the buffer's contents. -/
def FloatStore.writeRef (s : FloatStore) (r : Ref) (v : List Coord) : FloatStore :=
  ⟨s.arrs.set r v⟩

/-- `BaseDetector._identify_blink_candidates`, store-passing version: the
label processing is as in `identify_blink_candidates`, and the NaN-ing of the
coordinates happens via `x.copy()` / `y.copy()` followed by in-place masked
writes to the two freshly allocated buffers. -/
def identify_blink_candidates_st (sr : ℚ) (missing : Option ℚ) (xr yr : Ref)
    (candidates : List GazeEventTypeEnum) (expand_blink_by_ms : ℤ) (s : FloatStore) :
    FloatStore × Except PyError (Ref × Ref × List GazeEventTypeEnum) :=
  if expand_blink_by_ms < 0 then
    (s, .error (.valueError "Argument expand_blink_by_ms must be non-negative"))
  else
    let x := s.readRef xr
    let y := s.readRef yr
    let missMask := (x.zip y).map fun p =>
      is_missing_value missing p.1 || is_missing_value missing p.2
    match maskedAssign candidates missMask .BLINK with
    | .error e => (s, .error e)
    | .ok c1 =>
      let c2 := set_short_chunks_as_undefined (minimum_samples_within_event sr) c1
      let c3 := merge_proximal_chunks (minimum_samples_between_identical_events sr) [] c2
      let c4 := if 0 < expand_blink_by_ms then expandBlinks sr expand_blink_by_ms c3 else c3
      let s1xc := s.allocRef x
      let s2yc := s1xc.1.allocRef y
      let s3 := s2yc.1.writeRef s1xc.2
        ((x.zip c4).map fun p => if p.2 = .BLINK then none else p.1)
      let s4 := s3.writeRef s2yc.2
        ((y.zip c4).map fun p => if p.2 = .BLINK then none else p.1)
      (s4, .ok (s1xc.2, s2yc.2, c4))

/-- A store-passing `_identify_gaze_event_candidates` hook: receives the
(blink-masked copy) buffers by reference. -/
abbrev IdentifyStFn :=
  ℚ → Ref → Ref → List GazeEventTypeEnum → FloatStore →
    FloatStore × Except PyError (List GazeEventTypeEnum)

/-- `BaseDetector.detect_candidates_monocular`, store-passing version.
`_verify_inputs` only reads the buffers (`reshape(-1)` returns a view of the
same buffer, modelled by keeping the same references), sampling-rate
estimation only reads `t`, and all later stages operate on the blink step's
fresh copies. -/
def detect_candidates_monocular_st (identify : IdentifyStFn) (missing : Option ℚ)
    (tr xr yr : Ref) (expand_blink_by_ms : ℤ) (s : FloatStore) :
    FloatStore × Except PyError (List GazeEventTypeEnum) :=
  let candidates0 : List GazeEventTypeEnum :=
    List.replicate (s.readRef xr).length .UNDEFINED
  match verify_inputs (s.readRef tr) (s.readRef xr) (s.readRef yr) with
  | .error e => (s, handleCaught candidates0 e)
  | .ok _ =>
    match calculate_sampling_rate (s.readRef tr) with
    | .error e => (s, handleCaught candidates0 e)
    | .ok sr =>
      match identify_blink_candidates_st sr missing xr yr candidates0 expand_blink_by_ms s with
      | (s1, .error e) => (s1, handleCaught candidates0 e)
      | (s1, .ok (xc, yc, c1)) =>
        match identify sr xc yc c1 s1 with
        | (s2, .error e) => (s2, handleCaught c1 e)
        | (s2, .ok c2) =>
          let c3 := set_short_chunks_as_undefined (minimum_samples_within_event sr) c2
          let c4 :=
            merge_proximal_chunks (minimum_samples_between_identical_events sr) [] c3
          (s2, .ok c4)

/-- The store-passing form of the I-VT hook: it only reads the coordinate
buffers (`np.diff` allocates internally) and writes a copied candidates
object array, so the float store is untouched. -/
def IVT_identify_st (velocity_threshold : ℚ) : IdentifyStFn := fun sr xr yr c s =>
  (s, IVT_identify velocity_threshold sr (s.readRef xr) (s.readRef yr) c)

/-- Run-length encoding of a label list: the maximal runs of identical
values, in order, with their lengths (used to state and prove the chunk
properties of `get_chunk_indices`-based operations). -/
def runs : List GazeEventTypeEnum → List (GazeEventTypeEnum × ℕ)
  | [] => []
  | a :: t =>
    match runs t with
    | [] => [(a, 1)]
    | (b, k) :: rs => if a = b then (a, k + 1) :: rs else (a, 1) :: (b, k) :: rs

/-- Decode a run-length encoding back into a label list. -/
def decodeRuns : List (GazeEventTypeEnum × ℕ) → List GazeEventTypeEnum
  | [] => []
  | (l, k) :: t => List.replicate k l ++ decodeRuns t

/-- Short-chunk suppression expressed on the run-length encoding: every run
strictly shorter than `minS` is relabelled UNDEFINED. -/
def suppressShortRuns (minS : ℤ) (rle : List (GazeEventTypeEnum × ℕ)) :
    List (GazeEventTypeEnum × ℕ) :=
  rle.map fun p => if (p.2 : ℤ) < minS then (.UNDEFINED, p.2) else p

/-- The left-to-right merged labels of the proximal-chunk merge, expressed on
the run-length encoding: a non-first, non-last run that is short and not
exempt is overwritten exactly when the final label of the run to its left
(which may itself have been merged) equals the original label of the run to
its right, receiving that shared label. -/
def mergeRunsGo (minS : ℤ) (allow : List GazeEventTypeEnum) :
    GazeEventTypeEnum → List (GazeEventTypeEnum × ℕ) → List (GazeEventTypeEnum × ℕ)
  | _, [] => []
  | prev, (l, k) :: rest =>
    let merged :=
      decide ((k : ℤ) < minS) && !(allow.contains l) &&
        (match rest.head? with
         | some q => decide (prev = q.1)
         | none => false)
    let lNew := if merged then prev else l
    (lNew, k) :: mergeRunsGo minS allow lNew rest

/-- The proximal-chunk merge on the run-length encoding: the first run is
never touched; later runs are processed by `mergeRunsGo` (the last run is
protected there by the empty-`rest` case). -/
def mergeRunsRLE (minS : ℤ) (allow : List GazeEventTypeEnum) :
    List (GazeEventTypeEnum × ℕ) → List (GazeEventTypeEnum × ℕ)
  | [] => []
  | (l, k) :: rest => (l, k) :: mergeRunsGo minS allow l rest

/-- Modelled from the claim's wording for `mergeProximalChunks`: every middle
run shorter than the minimum whose label is not exempt and whose immediate
left and right neighbour runs *in the original array* carry an identical
label is overwritten with that shared label; all decisions depend only on the
original array's runs. -/
def mergeProximalSpec (minS : ℤ) (allow : List GazeEventTypeEnum)
    (arr : List GazeEventTypeEnum) : List GazeEventTypeEnum :=
  let rle := runs arr
  decodeRuns (rle.mapIdx fun i p =>
    if i ≠ 0 ∧ i ≠ rle.length - 1 ∧ (p.2 : ℤ) < minS ∧ p.1 ∉ allow ∧
        (rle.getD (i - 1) (.UNDEFINED, 0)).1 = (rle.getD (i + 1) (.UNDEFINED, 0)).1 then
      ((rle.getD (i - 1) (.UNDEFINED, 0)).1, p.2)
    else p)

deriving instance DecidableEq for Except

/-- The index lists of a run-length encoding, starting at a given offset:
run `i` occupies `List.range' (sum of earlier counts) (its count)`.  Used to
relate `get_chunk_indices` to `runs`. -/
def idxChunks : ℕ → List (GazeEventTypeEnum × ℕ) → List (List ℕ)
  | _, [] => []
  | ofs, (_, k) :: t => List.range' ofs k :: idxChunks (ofs + k) t

/-- Normalization of a run-length encoding: drop zero-length runs and merge
adjacent runs with equal labels.  `runs ∘ decodeRuns = normalizeRuns`. -/
def normalizeRuns : List (GazeEventTypeEnum × ℕ) → List (GazeEventTypeEnum × ℕ)
  | [] => []
  | (l, k) :: t =>
    if k = 0 then normalizeRuns t
    else
      match normalizeRuns t with
      | [] => [(l, k)]
      | (l', k') :: t' => if l = l' then (l, k + k') :: t' else (l, k) :: (l', k') :: t'

/-- Sum of the run lengths of a run-length encoding. -/
def sumCounts (rle : List (GazeEventTypeEnum × ℕ)) : ℕ :=
  (rle.map Prod.snd).sum

theorem base_event_ok_iff (ts : List PFloat) :
    BaseEvent_init_check ts = .ok () ↔ ¬ timestampsViolation ts := by
  unfold BaseEvent_init_check timestampsViolation
  split_ifs with h1 h2 h3
  · simp [h1]
  · simp only [Bool.or_eq_true, List.any_eq_true] at h2
    constructor
    · intro h; cases h
    · intro h
      exfalso
      apply h
      right; left
      rcases h2 with ⟨v, hv, hp⟩ | ⟨v, hv, hp⟩
      · exact ⟨v, hv, Or.inl hp⟩
      · exact ⟨v, hv, Or.inr hp⟩
  · simp only [List.any_eq_true] at h3
    constructor
    · intro h; cases h
    · intro h
      exact absurd (Or.inr (Or.inr h3)) h
  · simp only [Bool.or_eq_true, List.any_eq_true] at h2
    push_neg at h2
    simp only [List.any_eq_true] at h3
    push_neg at h3
    constructor
    · intro _ hviol
      rcases hviol with h | ⟨v, hv, hp | hp⟩ | ⟨v, hv, hp⟩
      · exact h1 h
      · exact absurd hp (by simpa using h2.1 v hv)
      · exact absurd hp (by simpa using h2.2 v hv)
      · exact absurd hp (by simpa using h3 v hv)
    · intro _; rfl

theorem viewer_distance_bad_iff (d : PFloat) :
    (!d.isfinite || d.le (.val 0)) = true ↔
      ¬(d.isfinite = true ∧ (PFloat.val 0).lt d = true) := by
  cases d <;> simp [PFloat.isfinite, PFloat.le, PFloat.lt]

theorem gaze_event_ok_iff (ts x y : List PFloat) (d : PFloat) :
    BaseGazeEvent_init_check ts x y d = .ok () ↔ ¬ gazeViolation ts x y d := by
  unfold BaseGazeEvent_init_check
  by_cases hd : (!d.isfinite || d.le (.val 0)) = true
  · rw [if_pos hd]
    have hg : gazeViolation ts x y d :=
      Or.inr (Or.inl ((viewer_distance_bad_iff d).mp hd))
    simp [hg]
  · rw [if_neg hd]
    have hdok : d.isfinite = true ∧ (PFloat.val 0).lt d = true := by
      by_contra hcon
      exact hd ((viewer_distance_bad_iff d).mpr hcon)
    by_cases hlen : ts.length ≠ x.length ∨ ts.length ≠ y.length
    · rw [if_pos hlen]
      have hg : gazeViolation ts x y d := by
        right; right
        intro ⟨ha, hb⟩
        rcases hlen with h | h
        · exact h ha
        · exact h hb
      simp [hg]
    · rw [if_neg hlen]
      push_neg at hlen
      rw [base_event_ok_iff]
      unfold gazeViolation
      constructor
      · intro h hviol
        rcases hviol with hviol | hviol | hviol
        · exact h hviol
        · exact hviol hdok
        · exact hviol ⟨hlen.1, hlen.2⟩
      · intro h hv
        exact h (Or.inl hv)

/-- C4: Constructing a Blink, Fixation, or Saccade event raises `InvalidInput`
(a `ValueError`) if and only if the input violates one of: at least 2 samples;
no NaN or infinite timestamps; no negative timestamps; and, for the
gaze-bearing events, a strictly positive finite viewer distance and
equal-length timestamp/x/y arrays.  All other inputs (including non-monotonic
timestamps, which are not checked) construct successfully. -/
theorem C4_event_invariants (timestamps x y pupil : List PFloat) (d : PFloat) :
    (BlinkEvent_construct timestamps = .ok () ↔ ¬ timestampsViolation timestamps) ∧
    (FixationEvent_construct timestamps x y pupil d = .ok () ↔
      ¬ gazeViolation timestamps x y d) ∧
    (SaccadeEvent_construct timestamps x y d = .ok () ↔
      ¬ gazeViolation timestamps x y d) :=
  ⟨base_event_ok_iff timestamps, gaze_event_ok_iff timestamps x y d,
    gaze_event_ok_iff timestamps x y d⟩

/-- C4 witness: a concrete non-monotonic but otherwise valid input constructs
successfully, and a concrete 1-sample input does not. -/
theorem C4_event_invariants_witness :
    BlinkEvent_construct [.val 3, .val 1, .val 2] = .ok () ∧
    SaccadeEvent_construct [.val 3, .val 1] [.val 0, .val 0] [.val 0, .val 0]
        (.val 60) = .ok () ∧
    ¬ BlinkEvent_construct [.val 3] = .ok () := by
  refine ⟨?_, ?_, ?_⟩
  · exact (C4_event_invariants [.val 3, .val 1, .val 2] [] [] [] .nan).1.mpr
      (by with_unfolding_all decide)
  · exact (C4_event_invariants [.val 3, .val 1] [.val 0, .val 0] [.val 0, .val 0] []
      (.val 60)).2.2.mpr (by with_unfolding_all decide)
  · intro h
    exact absurd ((C4_event_invariants [.val 3] [] [] [] .nan).1.mp h)
      (by with_unfolding_all decide)

/-- C1 (amended): within `detect_candidates_monocular`, `ValueError`-class
failures (non-1-D inputs, mismatched lengths, fewer than 2 timestamps) are
caught and the call returns the all-UNDEFINED sequence of length `len(x)`;
but a non-finite estimated sampling rate (e.g. from all-duplicate timestamps)
raises `RuntimeError`, which the `except ValueError` handler does not catch,
so that failure propagates to the caller. -/
theorem C1_monocular_catches_only_valueerror (identify : IdentifyFn) (missing : Option ℚ)
    (t x y : List Coord) (expand : ℤ) :
    ((t.length ≠ x.length ∨ t.length ≠ y.length ∨ x.length ≠ y.length ∨ t.length < 2) →
      detect_candidates_monocular identify missing t x y expand =
        .ok (List.replicate x.length .UNDEFINED)) ∧
    ((t.length = x.length ∧ t.length = y.length ∧ 2 ≤ t.length ∧
        (t.any Option.isNone = true ∨ medianQ (diffList (t.filterMap id)) = 0)) →
      detect_candidates_monocular identify missing t x y expand =
        .error (.runtimeError "Error calculating sampling rate")) := by
  constructor
  · intro h
    by_cases hlen : t.length ≠ x.length ∨ t.length ≠ y.length ∨ x.length ≠ y.length
    · have hv : verify_inputs t x y =
          .error (.valueError "t, x and y must have the same length") := by
        rw [verify_inputs, if_pos hlen]
      simp only [detect_candidates_monocular, hv, handleCaught]
    · have hv : verify_inputs t x y = .ok (t, x, y) := by
        rw [verify_inputs, if_neg hlen]
      have hlt : t.length < 2 := by tauto
      have hc : calculate_sampling_rate t =
          .error (.valueError "timestamps must be of length at least 2") := by
        rw [calculate_sampling_rate, if_pos hlt]
      simp only [detect_candidates_monocular, hv, hc, handleCaught]
  · rintro ⟨h1, h2, h3, h4⟩
    have hv : verify_inputs t x y = .ok (t, x, y) := by
      rw [verify_inputs, if_neg]
      push_neg
      exact ⟨h1, h2, h1 ▸ h2.symm ▸ rfl⟩
    have hc : calculate_sampling_rate t =
        .error (.runtimeError "Error calculating sampling rate") := by
      rw [calculate_sampling_rate, if_neg (by omega)]
      by_cases han : t.any Option.isNone = true
      · rw [if_pos han]
      · rw [if_neg han]
        have hmd : medianQ (diffList (t.filterMap id)) = 0 := by tauto
        simp only [hmd, if_true, if_pos trivial]
    simp only [detect_candidates_monocular, hv, hc, handleCaught]

/-- C1 counterexample: the all-duplicate-timestamp input `[5,5,5]` (a case the
claim lists as caught) makes `detect_candidates_monocular` propagate a
`RuntimeError` instead of returning the all-UNDEFINED sequence of length 3. -/
theorem C1_counterexample :
    detect_candidates_monocular (IVT_identify 1) none [some 5, some 5, some 5]
        [some 1, some 2, some 3] [some 1, some 2, some 3] 0 =
      .error (.runtimeError "Error calculating sampling rate") ∧
    detect_candidates_monocular (IVT_identify 1) none [some 5, some 5, some 5]
        [some 1, some 2, some 3] [some 1, some 2, some 3] 0 ≠
      .ok (List.replicate 3 .UNDEFINED) := by
  with_unfolding_all decide

/-- C1 witness: instantiating both branches of the amended theorem — a
mismatched-length input is caught and yields the all-UNDEFINED list of
`len(x)`, while the all-duplicate-timestamp input raises. -/
theorem C1_monocular_catches_only_valueerror_witness :
    detect_candidates_monocular (IVT_identify 1) none [some 0]
        ([some 1, some 2] : List Coord) ([some 1, some 2] : List Coord) 0 =
      .ok (List.replicate 2 .UNDEFINED) ∧
    detect_candidates_monocular (IVT_identify 1) none [some 7, some 7]
        [some 1, some 2] [some 1, some 2] 0 =
      .error (.runtimeError "Error calculating sampling rate") :=
  ⟨(C1_monocular_catches_only_valueerror (IVT_identify 1) none [some 0]
      [some 1, some 2] [some 1, some 2] 0).1 (by decide),
   (C1_monocular_catches_only_valueerror (IVT_identify 1) none [some 7, some 7]
      [some 1, some 2] [some 1, some 2] 0).2 (by with_unfolding_all decide)⟩

/-- C2: `detect_candidates_binocular` never reaches the fusion logic — its
per-eye calls `self.detect_candidates_monocular(x=..., y=..., expand_blink_by_ms=...)`
omit the required positional argument `t`, so every call raises `TypeError`
(which nothing catches) instead of returning fused labels. -/
theorem C2_binocular_raises_typeerror :
    detect_candidates_binocular (IVT_identify 1) none
        [some 0, some 2] [some 1, some 1] [some 1, some 1]
        [some 2, some 2] [some 2, some 2] 0 "both" =
      .error (.typeError
        "detect_candidates_monocular missing 1 required positional argument: t") := by
  with_unfolding_all decide

/-- C3: on the 50-sample 500 Hz constant-position scenario the I-VT detection
pipeline raises `IndexError` (the length-49 velocity mask is applied to the
length-50 candidates array, and `IndexError` is not caught by the
`except ValueError` handler), rather than producing all-FIXATION labels. -/
theorem C3_ivt_scenario_raises_indexerror :
    detect_candidates_monocular (IVT_identify (1/2)) none
        ((List.range 50).map fun i => some ((i : ℚ) * 2))
        (List.replicate 50 (some 100)) (List.replicate 50 (some 100)) 0 =
      .error (.indexError "boolean index did not match indexed array along dimension 0") := by
  with_unfolding_all decide

/-- C5 counterexample: on the chunk structure FIXATION(5), SACCADE(1),
FIXATION(1), SACCADE(5) with minimum length 3 and no exemptions, the merge of
the first middle chunk changes the decision for the second one: the code
leaves index 6 FIXATION, while the claim's original-array semantics
(`mergeProximalSpec`) would overwrite it with its original neighbours' shared
SACCADE label. -/
theorem C5_counterexample :
    merge_proximal_chunks 3 []
        [.FIXATION, .FIXATION, .FIXATION, .FIXATION, .FIXATION, .SACCADE, .FIXATION,
         .SACCADE, .SACCADE, .SACCADE, .SACCADE, .SACCADE] ≠
      mergeProximalSpec 3 []
        [.FIXATION, .FIXATION, .FIXATION, .FIXATION, .FIXATION, .SACCADE, .FIXATION,
         .SACCADE, .SACCADE, .SACCADE, .SACCADE, .SACCADE] ∧
    (merge_proximal_chunks 3 []
        [.FIXATION, .FIXATION, .FIXATION, .FIXATION, .FIXATION, .SACCADE, .FIXATION,
         .SACCADE, .SACCADE, .SACCADE, .SACCADE, .SACCADE]).getD 6 .UNDEFINED =
      .FIXATION ∧
    (mergeProximalSpec 3 []
        [.FIXATION, .FIXATION, .FIXATION, .FIXATION, .FIXATION, .SACCADE, .FIXATION,
         .SACCADE, .SACCADE, .SACCADE, .SACCADE, .SACCADE]).getD 6 .UNDEFINED =
      .SACCADE := by
  with_unfolding_all decide

set_option maxRecDepth 8000 in
/-- C7 counterexample: for `arr = [0,0,0,0,6]`, window 2 and sampling rate
500, the code's interior velocity is `6 * (500/6) = 500`, not the claim's
`6 / (500/6) = 9/125`. -/
theorem C7_counterexample :
    calculate_axial_velocity (some 500) 2 [0, 0, 0, 0, 6] =
      .ok [none, none, some 500, none, none] ∧
    (500 : ℚ) ≠ (6 - 0) / (500 / (2 * ((2 : ℚ) + 1))) := by
  with_unfolding_all decide

theorem arctan2_zero_zero : arctan2 0 0 = 0 := by
  unfold arctan2
  norm_num

theorem pi_div_two_pi : Real.pi / (2 * Real.pi) = 1 / 2 := by
  rw [div_eq_iff (by positivity : (2 * Real.pi) ≠ 0)]
  ring

theorem half_pi_div_two_pi : Real.pi / 2 / (2 * Real.pi) = 1 / 4 := by
  rw [div_div, div_eq_iff (by positivity : (2 * (2 * Real.pi)) ≠ 0)]
  ring

theorem pyMod_of_floor_zero (a b : ℝ) (h : ⌊a / b⌋ = 0) : pyMod a b = a := by
  unfold pyMod
  rw [h]
  push_cast
  ring

theorem pyMod_pi : pyMod Real.pi (2 * Real.pi) = Real.pi := by
  apply pyMod_of_floor_zero
  rw [pi_div_two_pi]
  norm_num

theorem pyMod_zero_num : pyMod 0 (2 * Real.pi) = 0 := by
  apply pyMod_of_floor_zero
  norm_num

theorem pyMod_half_pi : pyMod (Real.pi / 2) (2 * Real.pi) = Real.pi / 2 := by
  apply pyMod_of_floor_zero
  rw [half_pi_div_two_pi]
  norm_num

theorem pyMod_neg_half_pi :
    pyMod (-(Real.pi / 2)) (2 * Real.pi) = 3 * Real.pi / 2 := by
  unfold pyMod
  have h : -(Real.pi / 2) / (2 * Real.pi) = -(1 / 4) := by
    rw [neg_div, half_pi_div_two_pi]
  rw [h]
  have h4 : ⌊(-(1 / 4) : ℝ)⌋ = -1 := by
    rw [Int.floor_eq_iff]
    norm_num
  rw [h4]
  push_cast
  ring

/-- C9 (amended): `calculate_azimuth(p, p, ...)` returns exactly 0 only for
the reference direction E (any letter case, both angle units); for W, S and N
the same-point azimuth is the reference-direction offset itself — π (180°),
π/2 (90°) and 3π/2 (270°) respectively. -/
theorem C9_azimuth_same_point (p : ℝ × ℝ) :
    calculate_azimuth p p "E" true = .ok 0 ∧
    calculate_azimuth p p "E" false = .ok 0 ∧
    calculate_azimuth p p "e" false = .ok 0 ∧
    calculate_azimuth p p "W" true = .ok Real.pi ∧
    calculate_azimuth p p "W" false = .ok 180 ∧
    calculate_azimuth p p "S" true = .ok (Real.pi / 2) ∧
    calculate_azimuth p p "N" true = .ok (3 * Real.pi / 2) := by
  have hE : pyToUpper "E" = "E" := rfl
  have he : pyToUpper "e" = "E" := rfl
  have hW : pyToUpper "W" = "W" := rfl
  have hS : pyToUpper "S" = "S" := rfl
  have hN : pyToUpper "N" = "N" := rfl
  refine ⟨?_, ?_, ?_, ?_, ?_, ?_, ?_⟩
  · simp [calculate_azimuth, hE, arctan2_zero_zero, pyMod_zero_num]
  · simp [calculate_azimuth, hE, arctan2_zero_zero, pyMod_zero_num]
  · simp [calculate_azimuth, he, arctan2_zero_zero, pyMod_zero_num]
  · simp [calculate_azimuth, hW, arctan2_zero_zero, pyMod_pi]
  · simp [calculate_azimuth, hW, arctan2_zero_zero, pyMod_pi]
    rw [mul_comm, div_mul_cancel₀ _ Real.pi_ne_zero]
  · simp [calculate_azimuth, hS, arctan2_zero_zero, pyMod_half_pi]
  · simp [calculate_azimuth, hN, arctan2_zero_zero,
      show ("N" : String) ≠ "W" from by decide, show ("N" : String) ≠ "S" from by decide,
      zero_sub, pyMod_neg_half_pi]

/-- C9 counterexample: at the same point with `zeroDirection = 'W'` the
azimuth is 180 (degrees), not 0. -/
theorem C9_counterexample :
    calculate_azimuth ((0 : ℝ), (0 : ℝ)) ((0 : ℝ), (0 : ℝ)) "W" false = .ok 180 ∧
    (180 : ℝ) ≠ 0 := by
  constructor
  · have hW : pyToUpper "W" = "W" := rfl
    simp [calculate_azimuth, hW, arctan2_zero_zero, pyMod_pi]
    rw [mul_comm, div_mul_cancel₀ _ Real.pi_ne_zero]
  · norm_num

theorem roundtrip_eval (deg d ps : ℝ) (h0 : 0 ≤ deg) (h1 : deg < 180)
    (hd : 0 < d) (hps : 0 < ps) :
    pixels_to_visual_angle (visual_angle_to_pixels deg d ps) d ps false =
      .ok (Real.arctan (2 * Real.tan (deg * Real.pi / 360)) * (180 / Real.pi)) := by
  have hang : (|deg| / 2) * Real.pi / 180 = deg * Real.pi / 360 := by
    rw [abs_of_nonneg h0]
    ring
  have hlt : deg * Real.pi / 360 < Real.pi / 2 := by
    rw [div_lt_div_iff₀ (by norm_num) (by norm_num)]
    calc deg * Real.pi * 2 < 180 * Real.pi * 2 := by
          have := Real.pi_pos
          nlinarith
      _ = Real.pi * 360 := by ring
  have htan : 0 ≤ Real.tan (deg * Real.pi / 360) :=
    Real.tan_nonneg_of_nonneg_of_le_pi_div_two (by positivity) hlt.le
  have hpx : visual_angle_to_pixels deg d ps =
      2 * (d * Real.tan (deg * Real.pi / 360)) / ps := by
    unfold visual_angle_to_pixels
    rw [hang]
  have hpxnn : 0 ≤ visual_angle_to_pixels deg d ps := by
    rw [hpx]
    positivity
  unfold pixels_to_visual_angle
  rw [if_neg (by push_neg; exact ⟨hpxnn, hd.le, hps.le⟩)]
  have harg : visual_angle_to_pixels deg d ps * ps / d =
      2 * Real.tan (deg * Real.pi / 360) := by
    rw [hpx]
    field_simp
    ring
  rw [harg]
  simp

theorem arctan_double_tan_lt (deg : ℝ) (h0 : 0 < deg) (h1 : deg < 180) :
    Real.arctan (2 * Real.tan (deg * Real.pi / 360)) * (180 / Real.pi) < deg := by
  have hpi := Real.pi_pos
  set th := deg * Real.pi / 360 with hth
  have hth0 : 0 < th := by positivity
  have hthlt : th < Real.pi / 2 := by
    rw [hth, div_lt_div_iff₀ (by norm_num) (by norm_num)]
    nlinarith
  have key : Real.arctan (2 * Real.tan th) < 2 * th := by
    rcases le_or_lt (Real.pi / 4) th with hq | hq
    · calc Real.arctan (2 * Real.tan th) < Real.pi / 2 := Real.arctan_lt_pi_div_two _
        _ ≤ 2 * th := by linarith
    · have htanpos : 0 < Real.tan th := Real.tan_pos_of_pos_of_lt_pi_div_two hth0 hthlt
      have htanlt : Real.tan th < 1 := by
        have := Real.tan_lt_tan_of_nonneg_of_lt_pi_div_two hth0.le
          (by linarith [Real.pi_pos] : Real.pi / 4 < Real.pi / 2) hq
        rwa [Real.tan_pi_div_four] at this
      have hsq : 0 < 1 - Real.tan th ^ 2 := by nlinarith
      have hsq1 : 1 - Real.tan th ^ 2 < 1 := by nlinarith
      have h2tan : 2 * Real.tan th < Real.tan (2 * th) := by
        rw [Real.tan_two_mul]
        rw [lt_div_iff₀ hsq]
        nlinarith
      calc Real.arctan (2 * Real.tan th) < Real.arctan (Real.tan (2 * th)) :=
            Real.arctan_strictMono h2tan
        _ = 2 * th := Real.arctan_tan (by linarith) (by linarith)
  calc Real.arctan (2 * Real.tan th) * (180 / Real.pi)
      < 2 * th * (180 / Real.pi) := by
        apply mul_lt_mul_of_pos_right key
        positivity
    _ = deg := by
        rw [hth]
        field_simp
        ring

/-- C6 (amended): for finite positive `d`, `ps` and `0 ≤ deg < 180`, the
round trip `pixelsToVisualAngle(visualAngleToPixels(deg, d, ps), d, ps)`
returns `(180/π)·arctan(2·tan(deg·π/360))` — the forward conversion halves
the angle before taking the tangent while the inverse applies a plain
arctangent — which is strictly smaller than `deg` for every `0 < deg < 180`
(it approaches `deg` only in the small-angle limit), so the round trip is
not the identity up to floating-point tolerance. -/
theorem C6_roundtrip_characterization (deg d ps : ℝ) (h0 : 0 ≤ deg) (h1 : deg < 180)
    (hd : 0 < d) (hps : 0 < ps) :
    pixels_to_visual_angle (visual_angle_to_pixels deg d ps) d ps false =
      .ok (Real.arctan (2 * Real.tan (deg * Real.pi / 360)) * (180 / Real.pi)) ∧
    (0 < deg →
      Real.arctan (2 * Real.tan (deg * Real.pi / 360)) * (180 / Real.pi) < deg) :=
  ⟨roundtrip_eval deg d ps h0 h1 hd hps, fun hp => arctan_double_tan_lt deg hp h1⟩

/-- C6 counterexample: at `deg = 120`, `d = ps = 1` the round trip returns a
value below 90, more than 30 degrees away from the input, so the claimed
equality up to floating-point tolerance fails. -/
theorem C6_counterexample :
    pixels_to_visual_angle (visual_angle_to_pixels 120 1 1) 1 1 false ≠ .ok 120 ∧
    Real.arctan (2 * Real.tan (120 * Real.pi / 360)) * (180 / Real.pi) < 90 := by
  have heval := roundtrip_eval 120 1 1 (by norm_num) (by norm_num) (by norm_num) (by norm_num)
  have hlt : Real.arctan (2 * Real.tan (120 * Real.pi / 360)) * (180 / Real.pi) < 90 := by
    have h2 : Real.arctan (2 * Real.tan (120 * Real.pi / 360)) < Real.pi / 2 :=
      Real.arctan_lt_pi_div_two _
    have hpos : (0 : ℝ) < 180 / Real.pi := by positivity
    calc Real.arctan (2 * Real.tan (120 * Real.pi / 360)) * (180 / Real.pi)
        < (Real.pi / 2) * (180 / Real.pi) := mul_lt_mul_of_pos_right h2 hpos
      _ = 90 := by
          field_simp
          ring
  refine ⟨?_, hlt⟩
  rw [heval]
  intro hc
  have hval := Except.ok.inj hc
  linarith

/-- C6 witness: the round-trip characterization instantiated at
`deg = 120`, `d = ps = 1`. -/
theorem C6_roundtrip_characterization_witness :
    pixels_to_visual_angle (visual_angle_to_pixels 120 1 1) 1 1 false =
      .ok (Real.arctan (2 * Real.tan (120 * Real.pi / 360)) * (180 / Real.pi)) ∧
    Real.arctan (2 * Real.tan (120 * Real.pi / 360)) * (180 / Real.pi) < 120 := by
  have h := C6_roundtrip_characterization 120 1 1 (by norm_num) (by norm_num)
    (by norm_num) (by norm_num)
  exact ⟨h.1, h.2 (by norm_num)⟩

/-- The sum of the numpy slice `arr[a : a+b]` equals the interval sum of the
elements over `Finset.Ico a (a+b)`. -/
theorem slice_sum_eq_Ico (l : List ℚ) (a b : ℕ) (h : a + b ≤ l.length) :
    ((l.drop a).take b).sum = (Finset.Ico a (a + b)).sum fun i => l.getD i 0 := by
  induction b with
  | zero => simp
  | succ b ih =>
    have hab : a + b < l.length := by omega
    rw [List.take_succ]
    rw [List.sum_append]
    rw [ih (by omega)]
    have hget : (l.drop a)[b]? = some (l.getD (a + b) 0) := by
      rw [List.getElem?_drop]
      rw [List.getElem?_eq_getElem hab]
      simp [List.getD, List.getElem?_eq_getElem hab]
    rw [hget]
    rw [show a + (b + 1) = (a + b) + 1 from by omega]
    rw [Finset.sum_Ico_succ_top (by omega)]
    simp

theorem foldl_set_getElem? (L : List ℕ) (g : ℕ → Option ℚ) (init : List (Option ℚ)) (t : ℕ) :
    (L.foldl (fun vel i => vel.set i (g i)) init)[t]? =
      if t ∈ L ∧ t < init.length then some (g t) else init[t]? := by
  induction L generalizing init with
  | nil => simp
  | cons x L ih =>
    simp only [List.foldl_cons]
    rw [ih]
    simp only [List.length_set]
    by_cases h1 : t ∈ L ∧ t < init.length
    · rw [if_pos h1, if_pos ⟨List.mem_cons_of_mem _ h1.1, h1.2⟩]
    · rw [if_neg h1]
      rw [List.getElem?_set]
      by_cases h2 : t ∈ x :: L ∧ t < init.length
      · rw [if_pos h2]
        have hx : x = t := by
          rcases List.mem_cons.mp h2.1 with h | h
          · omega
          · exact absurd ⟨h, h2.2⟩ h1
        subst hx
        rw [if_pos rfl, if_pos h2.2]
      · rw [if_neg h2]
        by_cases hx : x = t
        · subst hx
          have hge : init.length ≤ x := by
            by_contra hcon
            exact h2 ⟨List.mem_cons_self x L, by omega⟩
          rw [if_pos rfl, if_neg (by omega)]
          exact (List.getElem?_eq_none hge).symm
        · rw [if_neg hx]

/-- C7 (amended): for every finite sampling rate `s`, window `ws` and axis
array, `_calculate_axial_velocity` returns the list whose entry at each
interior index `t` (i.e. `ws ≤ t` and `t + ws < len`)  is
`(sum of arr over (t, t+ws] - sum of arr over [t-ws, t)) * (s / (2*(ws+1)))`
— a multiplication by the factor, not a division — and whose first and last
`ws` entries are NaN. -/
theorem C7_axial_velocity_characterization (s : ℚ) (ws : ℕ) (arr : List ℚ) :
    calculate_axial_velocity (some s) ws arr =
      .ok ((List.range arr.length).map (engbertVelocitySpecEntry s ws arr)) := by
  simp only [calculate_axial_velocity]
  congr 1
  apply List.ext_getElem?
  intro t
  rw [foldl_set_getElem?]
  simp only [List.length_replicate, List.getElem?_map]
  by_cases ht : t < arr.length
  · rw [List.getElem?_range ht]
    simp only [Option.map_some']
    by_cases hin : t ∈ List.range' ws (arr.length - 2 * ws)
    · have hmem := List.mem_range'_1.mp hin
      rw [if_pos ⟨hin, ht⟩]
      unfold engbertVelocitySpecEntry
      rw [if_pos (by omega)]
      have hb : ((arr.drop (t - ws)).take ws).sum =
          (Finset.Ico (t - ws) t).sum fun i => arr.getD i 0 := by
        have hs := slice_sum_eq_Ico arr (t - ws) ws (by omega)
        rwa [show t - ws + ws = t from by omega] at hs
      have ha : ((arr.drop (t + 1)).take ws).sum =
          (Finset.Ico (t + 1) (t + ws + 1)).sum fun i => arr.getD i 0 := by
        have hs := slice_sum_eq_Ico arr (t + 1) ws (by omega)
        rwa [show t + 1 + ws = t + ws + 1 from by omega] at hs
      rw [hb, ha]
    · rw [if_neg (by tauto)]
      rw [List.getElem?_replicate_of_lt ht]
      unfold engbertVelocitySpecEntry
      rw [if_neg]
      intro ⟨hc1, hc2⟩
      exact hin (List.mem_range'_1.mpr ⟨hc1, by omega⟩)
  · rw [if_neg (by tauto)]
    rw [List.getElem?_eq_none (by simpa using not_lt.mp ht)]
    rw [List.getElem?_eq_none (by simpa using not_lt.mp ht)]
    simp

theorem readRef_writeRef_ne (s : FloatStore) (r r' : Ref) (v : List Coord) (h : r ≠ r') :
    (s.writeRef r' v).readRef r = s.readRef r := by
  unfold FloatStore.writeRef FloatStore.readRef
  simp only [List.getD_eq_getElem?_getD]
  rw [List.getElem?_set_ne (fun he => h he.symm)]

theorem readRef_alloc_lt (s : FloatStore) (v : List Coord) (r : Ref)
    (h : r < s.arrs.length) :
    ((s.allocRef v).1).readRef r = s.readRef r := by
  unfold FloatStore.allocRef FloatStore.readRef
  simp only [List.getD_eq_getElem?_getD]
  rw [List.getElem?_append_left h]

theorem blink_st_preserves (sr : ℚ) (missing : Option ℚ) (xr yr : Ref)
    (cands : List GazeEventTypeEnum) (expand : ℤ) (s : FloatStore)
    (r : ℕ) (hr : r < s.arrs.length) :
    ((identify_blink_candidates_st sr missing xr yr cands expand s).1).readRef r =
      s.readRef r := by
  unfold identify_blink_candidates_st
  by_cases he : expand < 0
  · rw [if_pos he]
  · rw [if_neg he]
    cases hm : maskedAssign cands
        (((s.readRef xr).zip (s.readRef yr)).map fun p =>
          is_missing_value missing p.1 || is_missing_value missing p.2) .BLINK with
    | error e => simp only [hm]
    | ok c1 =>
      simp only [hm]
      have hlen1 : (s.allocRef (s.readRef xr)).1.arrs.length = s.arrs.length + 1 := by
        unfold FloatStore.allocRef
        simp
      have hyc_eq : ((s.allocRef (s.readRef xr)).1.allocRef (s.readRef yr)).2 =
          s.arrs.length + 1 := by
        show (s.allocRef (s.readRef xr)).1.arrs.length = s.arrs.length + 1
        exact hlen1
      have hxc_eq : (s.allocRef (s.readRef xr)).2 = s.arrs.length := rfl
      have hneq1 : r ≠ ((s.allocRef (s.readRef xr)).1.allocRef (s.readRef yr)).2 := by
        rw [hyc_eq]
        omega
      have hneq2 : r ≠ (s.allocRef (s.readRef xr)).2 := by
        rw [hxc_eq]
        omega
      have hlt1 : r < (s.allocRef (s.readRef xr)).1.arrs.length := by
        rw [hlen1]
        omega
      rw [readRef_writeRef_ne _ _ _ _ hneq1]
      rw [readRef_writeRef_ne _ _ _ _ hneq2]
      rw [readRef_alloc_lt _ _ _ hlt1]
      rw [readRef_alloc_lt _ _ _ hr]

theorem blink_st_fresh_refs (sr : ℚ) (missing : Option ℚ) (xr yr : Ref)
    (cands : List GazeEventTypeEnum) (expand : ℤ) (s : FloatStore)
    (xc yc : Ref) (c4 : List GazeEventTypeEnum) (s' : FloatStore)
    (heq : identify_blink_candidates_st sr missing xr yr cands expand s =
      (s', .ok (xc, yc, c4))) :
    s.arrs.length ≤ xc ∧ s.arrs.length ≤ yc := by
  unfold identify_blink_candidates_st at heq
  by_cases he : expand < 0
  · rw [if_pos he] at heq
    cases heq
  · rw [if_neg he] at heq
    cases hm : maskedAssign cands
        (((s.readRef xr).zip (s.readRef yr)).map fun p =>
          is_missing_value missing p.1 || is_missing_value missing p.2) .BLINK with
    | error e =>
      simp only [hm, Prod.mk.injEq] at heq
      exact Except.noConfusion heq.2
    | ok c1 =>
      simp only [hm, Prod.mk.injEq, Except.ok.injEq] at heq
      obtain ⟨hs, hxc, hyc, hc4⟩ := heq
      constructor
      · rw [← hxc]
        exact Nat.le.refl
      · rw [← hyc]
        show s.arrs.length ≤ (s.allocRef (s.readRef xr)).1.arrs.length
        unfold FloatStore.allocRef
        simp

/-- C10: `detect_candidates_monocular` never mutates the caller's `t`, `x` or
`y` buffers: for any detector hook that only writes to the buffers it is
handed (the blink step's fresh copies) or ones it allocates itself, the
store contents at the caller's three references after the call are exactly
what they were before it, whether the call succeeds or raises.  The NaN-ing
at blink positions happens via in-place writes to the two freshly allocated
copies only. -/
theorem C10_monocular_no_caller_mutation (identify : IdentifyStFn)
    (hframe : ∀ sr (xr yr : ℕ) c s (r : ℕ), r ≠ xr → r ≠ yr →
      ((identify sr xr yr c s).1).readRef r = s.readRef r)
    (missing : Option ℚ) (tr xr yr : ℕ) (expand : ℤ) (s : FloatStore)
    (htr : tr < s.arrs.length) (hxr : xr < s.arrs.length) (hyr : yr < s.arrs.length) :
    ((detect_candidates_monocular_st identify missing tr xr yr expand s).1).readRef tr =
      s.readRef tr ∧
    ((detect_candidates_monocular_st identify missing tr xr yr expand s).1).readRef xr =
      s.readRef xr ∧
    ((detect_candidates_monocular_st identify missing tr xr yr expand s).1).readRef yr =
      s.readRef yr := by
  suffices h : ∀ r : ℕ, r < s.arrs.length →
      ((detect_candidates_monocular_st identify missing tr xr yr expand s).1).readRef r =
        s.readRef r by
    exact ⟨h tr htr, h xr hxr, h yr hyr⟩
  intro r hr
  unfold detect_candidates_monocular_st
  cases hv : verify_inputs (s.readRef tr) (s.readRef xr) (s.readRef yr) with
  | error e => simp only [hv]
  | ok triple =>
    simp only [hv]
    cases hc : calculate_sampling_rate (s.readRef tr) with
    | error e => simp only [hc]
    | ok sr =>
      simp only [hc]
      have hpres := blink_st_preserves sr missing xr yr
        (List.replicate (s.readRef xr).length .UNDEFINED) expand s r hr
      cases hb : identify_blink_candidates_st sr missing xr yr
          (List.replicate (s.readRef xr).length .UNDEFINED) expand s with
      | mk s1 res =>
        rw [hb] at hpres
        cases res with
        | error e =>
          simp only [hb]
          exact hpres
        | ok trip =>
          obtain ⟨xc, yc, c1⟩ := trip
          have hfresh := blink_st_fresh_refs sr missing xr yr
            (List.replicate (s.readRef xr).length .UNDEFINED) expand s xc yc c1 s1 hb
          simp only [hb]
          have hid := hframe sr xc yc c1 s1 r (by omega) (by omega)
          cases hi : identify sr xc yc c1 s1 with
          | mk s2 res2 =>
            rw [hi] at hid
            cases res2 with
            | error e =>
              simp only [hi]
              exact hid.trans hpres
            | ok c2 =>
              simp only [hi]
              exact hid.trans hpres

/-- C10 witness: a concrete three-buffer store with the I-VT hook; all three
caller buffers read back unchanged after the call. -/
theorem C10_monocular_no_caller_mutation_witness :
    ((detect_candidates_monocular_st (IVT_identify_st 1) none 0 1 2 0
        ⟨[[some 1, some 2], [some 3, some 4], [some 5, some 6]]⟩).1).readRef 0 =
      (⟨[[some 1, some 2], [some 3, some 4], [some 5, some 6]]⟩ : FloatStore).readRef 0 ∧
    ((detect_candidates_monocular_st (IVT_identify_st 1) none 0 1 2 0
        ⟨[[some 1, some 2], [some 3, some 4], [some 5, some 6]]⟩).1).readRef 1 =
      (⟨[[some 1, some 2], [some 3, some 4], [some 5, some 6]]⟩ : FloatStore).readRef 1 ∧
    ((detect_candidates_monocular_st (IVT_identify_st 1) none 0 1 2 0
        ⟨[[some 1, some 2], [some 3, some 4], [some 5, some 6]]⟩).1).readRef 2 =
      (⟨[[some 1, some 2], [some 3, some 4], [some 5, some 6]]⟩ : FloatStore).readRef 2 :=
  C10_monocular_no_caller_mutation (IVT_identify_st 1)
    (fun _ _ _ _ _ _ _ _ => rfl) none 0 1 2 0
    ⟨[[some 1, some 2], [some 3, some 4], [some 5, some 6]]⟩
    (by decide) (by decide) (by decide)

theorem runs_cons (a : GazeEventTypeEnum) (t : List GazeEventTypeEnum) :
    runs (a :: t) =
      match runs t with
      | [] => [(a, 1)]
      | (b, k) :: rs => if a = b then (a, k + 1) :: rs else (a, 1) :: (b, k) :: rs := rfl

theorem runs_cons_head (a : GazeEventTypeEnum) (t : List GazeEventTypeEnum) :
    ∃ k rs, runs (a :: t) = (a, k) :: rs ∧ 0 < k := by
  rw [runs_cons]
  cases hr : runs t with
  | nil => exact ⟨1, [], rfl, one_pos⟩
  | cons p rs =>
    obtain ⟨b, k⟩ := p
    dsimp only
    by_cases hab : a = b
    · subst hab
      rw [if_pos rfl]
      exact ⟨k + 1, rs, rfl, by omega⟩
    · rw [if_neg hab]
      exact ⟨1, (b, k) :: rs, rfl, one_pos⟩

theorem decode_cons (l : GazeEventTypeEnum) (k : ℕ) (T : List (GazeEventTypeEnum × ℕ)) :
    decodeRuns ((l, k) :: T) = List.replicate k l ++ decodeRuns T := rfl

theorem decode_runs (l : List GazeEventTypeEnum) : decodeRuns (runs l) = l := by
  induction l with
  | nil => rfl
  | cons a t ih =>
    rw [runs_cons]
    cases hr : runs t with
    | nil =>
      rw [hr] at ih
      dsimp only
      rw [decode_cons]
      rw [show decodeRuns ([] : List (GazeEventTypeEnum × ℕ)) = [] from rfl] at ih ⊢
      simp [← ih]
    | cons p rs =>
      obtain ⟨b, k⟩ := p
      rw [hr] at ih
      dsimp only
      by_cases hab : a = b
      · subst hab
        rw [if_pos rfl, decode_cons]
        rw [decode_cons] at ih
        rw [List.replicate_succ, List.cons_append, ih]
      · rw [if_neg hab, decode_cons, decode_cons]
        rw [decode_cons] at ih
        rw [ih]
        simp

theorem decode_append (A B : List (GazeEventTypeEnum × ℕ)) :
    decodeRuns (A ++ B) = decodeRuns A ++ decodeRuns B := by
  induction A with
  | nil => rfl
  | cons p T ih =>
    obtain ⟨l, k⟩ := p
    simp only [List.cons_append, decode_cons]
    rw [ih, List.append_assoc]

theorem length_decode (A : List (GazeEventTypeEnum × ℕ)) :
    (decodeRuns A).length = sumCounts A := by
  induction A with
  | nil => rfl
  | cons p T ih =>
    obtain ⟨l, k⟩ := p
    rw [decode_cons]
    unfold sumCounts
    simp only [List.length_append, List.length_replicate, List.map_cons, List.sum_cons]
    unfold sumCounts at ih
    omega

theorem runs_replicate_append (k : ℕ) (l : GazeEventTypeEnum)
    (rest : List GazeEventTypeEnum) (hk : 0 < k) :
    runs (List.replicate k l ++ rest) =
      match runs rest with
      | [] => [(l, k)]
      | (l', k') :: rs => if l = l' then (l, k + k') :: rs else (l, k) :: (l', k') :: rs := by
  induction k with
  | zero => omega
  | succ k ih =>
    by_cases hk0 : 0 < k
    · rw [List.replicate_succ, List.cons_append, runs_cons, ih hk0]
      cases hr : runs rest with
      | nil =>
        dsimp only
        rw [if_pos rfl]
      | cons p rs =>
        obtain ⟨l', k'⟩ := p
        dsimp only
        by_cases hll : l = l'
        · rw [if_pos hll]
          dsimp only
          rw [if_pos rfl]
          have heq : k + k' + 1 = k + 1 + k' := by omega
          rw [heq, if_pos hll]
        · rw [if_neg hll]
          dsimp only
          rw [if_pos rfl, if_neg hll]
    · have hk1 : k = 0 := by omega
      subst hk1
      simp only [List.replicate_succ, List.replicate_zero, List.nil_append, List.cons_append]
      rw [runs_cons]
      cases hr : runs rest with
      | nil => rfl
      | cons p rs =>
        obtain ⟨l', k'⟩ := p
        dsimp only
        by_cases hll : l = l'
        · rw [if_pos hll, if_pos hll, show k' + 1 = 1 + k' from by omega]
        · rw [if_neg hll, if_neg hll]

theorem runs_decode_eq_normalize (R : List (GazeEventTypeEnum × ℕ)) :
    runs (decodeRuns R) = normalizeRuns R := by
  induction R with
  | nil => rfl
  | cons p T ih =>
    obtain ⟨l, k⟩ := p
    rw [decode_cons]
    unfold normalizeRuns
    by_cases hk : k = 0
    · subst hk
      simp only [List.replicate_zero, List.nil_append, if_pos rfl]
      exact ih
    · rw [if_neg hk]
      rw [runs_replicate_append k l _ (by omega)]
      rw [ih]

theorem decode_normalize (R : List (GazeEventTypeEnum × ℕ)) :
    decodeRuns (normalizeRuns R) = decodeRuns R := by
  induction R with
  | nil => rfl
  | cons p T ih =>
    obtain ⟨l, k⟩ := p
    unfold normalizeRuns
    by_cases hk : k = 0
    · subst hk
      rw [if_pos rfl, decode_cons]
      simp [ih]
    · rw [if_neg hk]
      cases hn : normalizeRuns T with
      | nil =>
        rw [hn] at ih
        dsimp only
        rw [decode_cons, decode_cons]
        rw [show decodeRuns ([] : List (GazeEventTypeEnum × ℕ)) = [] from rfl] at ih ⊢
        rw [← ih]
      | cons q t' =>
        obtain ⟨l', k'⟩ := q
        rw [hn] at ih
        dsimp only
        by_cases hll : l = l'
        · subst hll
          rw [if_pos rfl, decode_cons, decode_cons]
          rw [decode_cons] at ih
          rw [← ih, List.replicate_add, List.append_assoc]
        · rw [if_neg hll, decode_cons, decode_cons]
          rw [decode_cons] at ih
          rw [decode_cons, ih]

theorem suppress_cons_lt (minS : ℤ) (l : GazeEventTypeEnum) (k : ℕ)
    (T : List (GazeEventTypeEnum × ℕ)) (hkm : (k : ℤ) < minS) :
    suppressShortRuns minS ((l, k) :: T) =
      (GazeEventTypeEnum.UNDEFINED, k) :: suppressShortRuns minS T := by
  unfold suppressShortRuns
  simp only [List.map_cons]
  rw [if_pos hkm]

theorem suppress_cons_ge (minS : ℤ) (l : GazeEventTypeEnum) (k : ℕ)
    (T : List (GazeEventTypeEnum × ℕ)) (hkm : ¬ (k : ℤ) < minS) :
    suppressShortRuns minS ((l, k) :: T) = (l, k) :: suppressShortRuns minS T := by
  unfold suppressShortRuns
  simp only [List.map_cons]
  rw [if_neg hkm]

theorem normalize_cons_mem (l : GazeEventTypeEnum) (k : ℕ)
    (T : List (GazeEventTypeEnum × ℕ)) (p : GazeEventTypeEnum × ℕ)
    (hp : p ∈ normalizeRuns ((l, k) :: T)) :
    (p.1 = l ∧ k ≤ p.2) ∨ p ∈ normalizeRuns T := by
  unfold normalizeRuns at hp
  by_cases hk : k = 0
  · rw [if_pos hk] at hp
    exact Or.inr hp
  · rw [if_neg hk] at hp
    cases hn : normalizeRuns T with
    | nil =>
      rw [hn] at hp
      dsimp only at hp
      rcases List.mem_singleton.mp hp with h
      subst h
      exact Or.inl ⟨rfl, le_refl k⟩
    | cons q t' =>
      obtain ⟨l', k'⟩ := q
      rw [hn] at hp
      dsimp only at hp
      by_cases hll : l = l'
      · rw [if_pos hll] at hp
        rcases List.mem_cons.mp hp with h | h
        · subst h
          exact Or.inl ⟨rfl, by omega⟩
        · exact Or.inr (hn ▸ List.mem_cons_of_mem _ h)
      · rw [if_neg hll] at hp
        rcases List.mem_cons.mp hp with h | h
        · subst h
          exact Or.inl ⟨rfl, le_refl k⟩
        · exact Or.inr (hn ▸ h)

theorem normalize_suppress_labels (minS : ℤ) (R : List (GazeEventTypeEnum × ℕ)) :
    ∀ p ∈ normalizeRuns (suppressShortRuns minS R),
      p.1 = GazeEventTypeEnum.UNDEFINED ∨ minS ≤ (p.2 : ℤ) := by
  induction R with
  | nil =>
    intro p hp
    simp [suppressShortRuns, normalizeRuns] at hp
  | cons q T ih =>
    obtain ⟨l, k⟩ := q
    intro p hp
    by_cases hkm : (k : ℤ) < minS
    · rw [suppress_cons_lt minS l k T hkm] at hp
      rcases normalize_cons_mem _ _ _ _ hp with ⟨h1, _⟩ | h
      · exact Or.inl h1
      · exact ih p h
    · rw [suppress_cons_ge minS l k T hkm] at hp
      rcases normalize_cons_mem _ _ _ _ hp with ⟨_, h2⟩ | h
      · right
        push_neg at hkm
        have : (k : ℤ) ≤ (p.2 : ℤ) := by exact_mod_cast h2
        omega
      · exact ih p h

theorem suppress_normalize_suppress (minS : ℤ) (R : List (GazeEventTypeEnum × ℕ)) :
    suppressShortRuns minS (normalizeRuns (suppressShortRuns minS R)) =
      normalizeRuns (suppressShortRuns minS R) := by
  have hmem := normalize_suppress_labels minS R
  have hfix : ∀ p ∈ normalizeRuns (suppressShortRuns minS R),
      (if ((p.2 : ℕ) : ℤ) < minS then (GazeEventTypeEnum.UNDEFINED, p.2) else p) = p := by
    intro p hp
    rcases hmem p hp with h1 | h2
    · by_cases hlt : ((p.2 : ℕ) : ℤ) < minS
      · rw [if_pos hlt]
        obtain ⟨p1, p2⟩ := p
        simp only at h1
        rw [h1]
      · rw [if_neg hlt]
    · rw [if_neg (by omega)]
  unfold suppressShortRuns
  exact (List.map_congr_left (fun p hp => hfix p hp)).trans (List.map_id _)

theorem split_points_singleton (a : GazeEventTypeEnum) : split_points [a] = [] := rfl

theorem split_points_cons (a b : GazeEventTypeEnum) (t : List GazeEventTypeEnum) :
    split_points (a :: b :: t) =
      (if a ≠ b then [1] else []) ++ (split_points (b :: t)).map (· + 1) := by
  unfold split_points
  simp only [List.length_cons, Nat.add_sub_cancel]
  rw [List.range_succ_eq_map]
  rw [List.filterMap_cons]
  have hfun : ∀ i : ℕ,
      (if (a :: b :: t).getD (i + 1) .UNDEFINED ≠ (a :: b :: t).getD (i + 1 + 1) .UNDEFINED
        then some (i + 1 + 1) else none) =
      Option.map (· + 1)
        (if (b :: t).getD i .UNDEFINED ≠ (b :: t).getD (i + 1) .UNDEFINED
          then some (i + 1) else none) := by
    intro i
    simp only [List.getD_cons_succ]
    by_cases h : (b :: t).getD i .UNDEFINED ≠ t.getD i .UNDEFINED
    · rw [if_pos h, if_pos h]
      rfl
    · rw [if_neg h, if_neg h]
      rfl
  have htail : List.filterMap
      (fun i => if (a :: b :: t).getD i .UNDEFINED ≠ (a :: b :: t).getD (i + 1) .UNDEFINED
        then some (i + 1) else none) ((List.range t.length).map Nat.succ) =
      (List.filterMap
        (fun i => if (b :: t).getD i .UNDEFINED ≠ (b :: t).getD (i + 1) .UNDEFINED
          then some (i + 1) else none) (List.range t.length)).map (· + 1) := by
    rw [List.filterMap_map, List.map_filterMap]
    congr 1
    funext i
    exact hfun i
  by_cases hab : a = b
  · rw [show (if (a :: b :: t).getD 0 .UNDEFINED ≠ (a :: b :: t).getD (0 + 1) .UNDEFINED
        then some (0 + 1) else none) = none from by
      simp [List.getD_cons_zero, List.getD_cons_succ, hab]]
    rw [htail]
    rw [if_neg (by simp [hab])]
    rw [List.nil_append]
  · rw [show (if (a :: b :: t).getD 0 .UNDEFINED ≠ (a :: b :: t).getD (0 + 1) .UNDEFINED
        then some (0 + 1) else none) = some 1 from by
      simp [List.getD_cons_zero, List.getD_cons_succ, hab]]
    rw [htail]
    rw [if_pos (by simp [hab])]
    rfl

theorem np_split_nil (idxs : List ℕ) : np_split idxs [] = [idxs] := by
  rw [np_split]

theorem np_split_cons (idxs : List ℕ) (p : ℕ) (ps : List ℕ) :
    np_split idxs (p :: ps) = idxs.take p :: np_split (idxs.drop p) (ps.map (· - p)) := by
  rw [np_split]

theorem idxChunks_cons (ofs : ℕ) (l : GazeEventTypeEnum) (k : ℕ)
    (T : List (GazeEventTypeEnum × ℕ)) :
    idxChunks ofs ((l, k) :: T) = List.range' ofs k :: idxChunks (ofs + k) T := rfl

theorem np_split_map_succ (x : ℕ) (idxs : List ℕ) (pts : List ℕ) :
    np_split (x :: idxs) (pts.map (· + 1)) =
      match np_split idxs pts with
      | [] => [[x]]
      | c :: cs => (x :: c) :: cs := by
  cases pts with
  | nil =>
    rw [List.map_nil, np_split_nil, np_split_nil]
  | cons p ps =>
    rw [List.map_cons, np_split_cons, np_split_cons]
    have hmm : (ps.map (· + 1)).map (· - (p + 1)) = ps.map (· - p) := by
      rw [List.map_map]
      exact List.map_congr_left fun q _ => by show q + 1 - (p + 1) = q - p; omega
    rw [hmm]
    rfl

theorem np_split_range'_runs (arr : List GazeEventTypeEnum) (s : ℕ) (h : arr ≠ []) :
    np_split (List.range' s arr.length) (split_points arr) = idxChunks s (runs arr) := by
  induction arr generalizing s with
  | nil => exact absurd rfl h
  | cons a t ih =>
    cases t with
    | nil =>
      rw [split_points_singleton, np_split_nil]
      rfl
    | cons b t' =>
      rw [split_points_cons]
      by_cases hab : a = b
      · subst hab
        rw [if_neg (by simp), List.nil_append]
        rw [show (a :: a :: t').length = (a :: t').length + 1 from rfl, List.range'_succ,
          np_split_map_succ]
        rw [ih (s + 1) (by simp)]
        obtain ⟨k, rs, hr, hk⟩ := runs_cons_head a t'
        rw [hr]
        rw [runs_cons, hr]
        dsimp only
        rw [if_pos rfl, idxChunks_cons, idxChunks_cons]
        dsimp only
        rw [List.range'_succ]
        rw [show s + 1 + k = s + (k + 1) from by omega]
      · rw [if_pos hab]
        rw [show (a :: b :: t').length = (b :: t').length + 1 from rfl, List.range'_succ]
        rw [List.singleton_append, np_split_cons]
        have hdm : ((split_points (b :: t')).map (· + 1)).map (· - 1) =
            split_points (b :: t') := by
          rw [List.map_map]
          have hc : ((· - 1) ∘ (· + 1) : ℕ → ℕ) = id := by
            funext q; show q + 1 - 1 = q; omega
          rw [hc, List.map_id]
        rw [hdm]
        rw [show (s :: List.range' (s + 1) (b :: t').length).take 1 = [s] from rfl,
          show (s :: List.range' (s + 1) (b :: t').length).drop 1 =
            List.range' (s + 1) (b :: t').length from rfl]
        rw [ih (s + 1) (by simp)]
        obtain ⟨k, rs, hr, hk⟩ := runs_cons_head b t'
        rw [hr]
        rw [runs_cons, hr]
        dsimp only
        rw [if_neg hab, idxChunks_cons, idxChunks_cons]
        rfl

theorem get_chunk_indices_eq (arr : List GazeEventTypeEnum) (h : arr ≠ []) :
    get_chunk_indices arr = idxChunks 0 (runs arr) := by
  unfold get_chunk_indices
  rw [List.range_eq_range']
  exact np_split_range'_runs arr 0 h

theorem setIndices_cons (arr : List GazeEventTypeEnum) (i : ℕ) (L : List ℕ)
    (v : GazeEventTypeEnum) :
    setIndices arr (i :: L) v = setIndices (arr.set i v) L v := rfl

theorem setIndices_range' (k : ℕ) :
    ∀ (pre mid post : List GazeEventTypeEnum) (v : GazeEventTypeEnum),
      mid.length = k →
      setIndices (pre ++ mid ++ post) (List.range' pre.length k) v =
        pre ++ List.replicate k v ++ post := by
  induction k with
  | zero =>
    intro pre mid post v hm
    rw [List.length_eq_zero.mp hm]
    rfl
  | succ k ihk =>
    intro pre mid post v hm
    cases mid with
    | nil => exact absurd hm (by simp)
    | cons m mid' =>
      rw [List.range'_succ, setIndices_cons]
      have hset : ((pre ++ m :: mid') ++ post).set pre.length v =
          (pre ++ [v]) ++ mid' ++ post := by
        rw [List.append_assoc, List.set_append_right _ _ (le_refl pre.length),
          Nat.sub_self]
        rw [List.set_append_left _ _ (by simp : 0 < (m :: mid').length),
          List.set_cons_zero]
        simp
      rw [hset]
      have hlen : pre.length + 1 = (pre ++ [v]).length := by simp
      rw [hlen, ihk (pre ++ [v]) mid' post v (by simpa using hm)]
      simp [List.replicate_succ]

theorem suppress_fold (minS : ℤ) :
    ∀ (R : List (GazeEventTypeEnum × ℕ)) (P : List GazeEventTypeEnum),
      (idxChunks P.length R).foldl
        (fun acc chunk =>
          if (chunk.length : ℤ) < minS then setIndices acc chunk .UNDEFINED else acc)
        (P ++ decodeRuns R) =
      P ++ decodeRuns (suppressShortRuns minS R) := by
  intro R
  induction R with
  | nil => intro P; rfl
  | cons p T ih =>
    intro P
    obtain ⟨l, k⟩ := p
    rw [idxChunks_cons, List.foldl_cons, decode_cons]
    rw [List.length_range']
    by_cases hkm : (k : ℤ) < minS
    · rw [if_pos hkm, ← List.append_assoc,
        setIndices_range' k P (List.replicate k l) (decodeRuns T) .UNDEFINED
          (List.length_replicate k l)]
      rw [show P.length + k = (P ++ List.replicate k GazeEventTypeEnum.UNDEFINED).length
        from by simp]
      rw [ih (P ++ List.replicate k GazeEventTypeEnum.UNDEFINED)]
      rw [suppress_cons_lt minS l k T hkm, decode_cons]
      simp [List.append_assoc]
    · rw [if_neg hkm, ← List.append_assoc]
      rw [show P.length + k = (P ++ List.replicate k l).length from by simp]
      rw [ih (P ++ List.replicate k l)]
      rw [suppress_cons_ge minS l k T hkm, decode_cons]
      simp [List.append_assoc]

theorem suppress_nil_arr (minS : ℤ) : set_short_chunks_as_undefined minS [] = [] := by
  unfold set_short_chunks_as_undefined get_chunk_indices
  rw [show split_points [] = [] from rfl,
    show List.range (List.length ([] : List GazeEventTypeEnum)) = [] from rfl,
    np_split_nil]
  show (if ((([] : List ℕ).length : ℤ) < minS)
    then setIndices [] [] .UNDEFINED else []) = []
  rw [show setIndices [] [] GazeEventTypeEnum.UNDEFINED = [] from rfl]
  exact ite_self []

theorem suppress_eq_rle (minS : ℤ) (arr : List GazeEventTypeEnum) (h : arr ≠ []) :
    set_short_chunks_as_undefined minS arr =
      decodeRuns (suppressShortRuns minS (runs arr)) := by
  unfold set_short_chunks_as_undefined
  rw [get_chunk_indices_eq arr h]
  have h0 := suppress_fold minS (runs arr) []
  simp only [List.length_nil, List.nil_append, decode_runs] at h0
  exact h0

theorem sumCounts_suppress (minS : ℤ) (R : List (GazeEventTypeEnum × ℕ)) :
    sumCounts (suppressShortRuns minS R) = sumCounts R := by
  unfold sumCounts suppressShortRuns
  rw [List.map_map]
  congr 1
  apply List.map_congr_left
  intro p _
  show (if ((p.2 : ℕ) : ℤ) < minS then (GazeEventTypeEnum.UNDEFINED, p.2) else p).2 = p.2
  by_cases hp : ((p.2 : ℕ) : ℤ) < minS
  · rw [if_pos hp]
  · rw [if_neg hp]

theorem sumCounts_runs (arr : List GazeEventTypeEnum) : sumCounts (runs arr) = arr.length := by
  rw [← length_decode, decode_runs]

/-- C8: `_set_short_chunks_as_undefined` is idempotent: suppressing short
chunks twice with the same minimum length yields the same label array as
suppressing them once. -/
theorem C8_suppress_idempotent (minS : ℤ) (arr : List GazeEventTypeEnum) :
    set_short_chunks_as_undefined minS (set_short_chunks_as_undefined minS arr) =
      set_short_chunks_as_undefined minS arr := by
  by_cases h : arr = []
  · subst h
    rw [suppress_nil_arr, suppress_nil_arr]
  · have h1 := suppress_eq_rle minS arr h
    have hne : set_short_chunks_as_undefined minS arr ≠ [] := by
      rw [h1]
      intro hc
      have hl := congrArg List.length hc
      rw [length_decode, sumCounts_suppress, sumCounts_runs] at hl
      simp only [List.length_nil] at hl
      exact h (List.length_eq_zero.mp hl)
    rw [suppress_eq_rle minS _ hne, h1]
    rw [runs_decode_eq_normalize, suppress_normalize_suppress, decode_normalize]

theorem sumCounts_append (A B : List (GazeEventTypeEnum × ℕ)) :
    sumCounts (A ++ B) = sumCounts A + sumCounts B := by
  unfold sumCounts
  simp

theorem sumCounts_cons (l : GazeEventTypeEnum) (k : ℕ) (T : List (GazeEventTypeEnum × ℕ)) :
    sumCounts ((l, k) :: T) = k + sumCounts T := by
  unfold sumCounts
  simp

theorem runs_pos (l : List GazeEventTypeEnum) : ∀ p ∈ runs l, 0 < p.2 := by
  induction l with
  | nil => intro p hp; exact absurd hp (by simp [runs])
  | cons a t ih =>
    intro p hp
    rw [runs_cons] at hp
    cases hr : runs t with
    | nil =>
      rw [hr] at hp
      dsimp only at hp
      rw [List.mem_singleton] at hp
      subst hp
      exact one_pos
    | cons q rs =>
      obtain ⟨b, k⟩ := q
      rw [hr] at hp
      dsimp only at hp
      rw [hr] at ih
      by_cases hab : a = b
      · rw [if_pos hab] at hp
        rcases List.mem_cons.mp hp with h | h
        · subst h; exact Nat.succ_pos k
        · exact ih p (List.mem_cons_of_mem _ h)
      · rw [if_neg hab] at hp
        rcases List.mem_cons.mp hp with h | h
        · subst h; exact one_pos
        · exact ih p h

theorem decode_getD_run_start (P : List (GazeEventTypeEnum × ℕ)) (l : GazeEventTypeEnum)
    (k : ℕ) (L : List (GazeEventTypeEnum × ℕ)) (d : GazeEventTypeEnum) (hk : 0 < k) :
    (decodeRuns (P ++ (l, k) :: L)).getD (sumCounts P) d = l := by
  rw [decode_append, decode_cons]
  rw [List.getD_eq_getElem?_getD]
  rw [List.getElem?_append_right (le_of_eq (length_decode P))]
  rw [length_decode, Nat.sub_self]
  rw [List.getElem?_append_left (by simpa using hk)]
  rw [List.getElem?_replicate_of_lt hk]
  rfl

theorem idxChunks_length (R : List (GazeEventTypeEnum × ℕ)) :
    ∀ s, (idxChunks s R).length = R.length := by
  induction R with
  | nil => intro s; rfl
  | cons p T ih =>
    intro s
    obtain ⟨l, k⟩ := p
    rw [idxChunks_cons]
    simp [ih]

theorem idxChunks_getD (R : List (GazeEventTypeEnum × ℕ)) :
    ∀ (s i : ℕ), i < R.length →
      (idxChunks s R).getD i [] =
        List.range' (s + sumCounts (R.take i)) ((R.getD i (.UNDEFINED, 0)).2) := by
  induction R with
  | nil => intro s i h; exact absurd h (by simp)
  | cons p T ih =>
    intro s i h
    obtain ⟨l, k⟩ := p
    rw [idxChunks_cons]
    cases i with
    | zero =>
      rw [List.getD_cons_zero, List.getD_cons_zero, List.take_zero]
      rw [show sumCounts ([] : List (GazeEventTypeEnum × ℕ)) = 0 from rfl, Nat.add_zero]
    | succ i =>
      rw [List.getD_cons_succ, List.getD_cons_succ]
      rw [ih (s + k) i (by simpa using h)]
      rw [List.take_succ_cons, sumCounts_cons]
      rw [← Nat.add_assoc]

theorem range'_headD (s m : ℕ) (h : 0 < m) : (List.range' s m).headD 0 = s := by
  cases m with
  | zero => exact absurd h (by simp)
  | succ m => rw [List.range'_succ]; rfl

theorem mergeRunsGo_cons (minS : ℤ) (allow : List GazeEventTypeEnum)
    (prev l : GazeEventTypeEnum) (k : ℕ) (rest : List (GazeEventTypeEnum × ℕ)) :
    mergeRunsGo minS allow prev ((l, k) :: rest) =
      ((if (decide ((k : ℤ) < minS) && !(allow.contains l) &&
           (match rest.head? with
            | some q => decide (prev = q.1)
            | none => false)) then prev else l), k) ::
        mergeRunsGo minS allow
          (if (decide ((k : ℤ) < minS) && !(allow.contains l) &&
           (match rest.head? with
            | some q => decide (prev = q.1)
            | none => false)) then prev else l) rest := rfl

theorem mergeRunsGo_last (minS : ℤ) (allow : List GazeEventTypeEnum)
    (prev l : GazeEventTypeEnum) (k : ℕ) :
    mergeRunsGo minS allow prev [(l, k)] = [(l, k)] := by
  rw [mergeRunsGo_cons]
  simp only [List.head?_nil, Bool.and_false, if_false]
  rfl

theorem mergeRunsGo_cons₂ (minS : ℤ) (allow : List GazeEventTypeEnum)
    (prev l l₂ : GazeEventTypeEnum) (k k₂ : ℕ) (rest : List (GazeEventTypeEnum × ℕ)) :
    mergeRunsGo minS allow prev ((l, k) :: (l₂, k₂) :: rest) =
      if (k : ℤ) < minS ∧ l ∉ allow ∧ prev = l₂
      then (prev, k) :: mergeRunsGo minS allow prev ((l₂, k₂) :: rest)
      else (l, k) :: mergeRunsGo minS allow l ((l₂, k₂) :: rest) := by
  rw [mergeRunsGo_cons]
  simp only [List.head?_cons]
  by_cases hm : (k : ℤ) < minS ∧ l ∉ allow ∧ prev = l₂
  · have hb : (decide ((k : ℤ) < minS) && !(allow.contains l) && decide (prev = l₂)) = true := by
      obtain ⟨h1, h2, h3⟩ := hm
      simp [h1, h2, h3]
    rw [if_pos hm]
    simp only [hb, if_true]
  · have hb : (decide ((k : ℤ) < minS) && !(allow.contains l) && decide (prev = l₂)) = false := by
      by_cases h1 : (k : ℤ) < minS
      · by_cases h2 : l ∈ allow
        · simp [h2]
        · have h3 : prev ≠ l₂ := fun h => hm ⟨h1, h2, h⟩
          simp [h3]
      · simp [h1]
    rw [if_neg hm]
    simp only [hb]
    simp

theorem sumCounts_singleton (l : GazeEventTypeEnum) (k : ℕ) : sumCounts [(l, k)] = k := by
  unfold sumCounts
  simp

theorem counts_take (R S : List (GazeEventTypeEnum × ℕ))
    (h : R.map (·.2) = S.map (·.2)) (i : ℕ) :
    sumCounts (R.take i) = sumCounts (S.take i) := by
  unfold sumCounts
  rw [List.map_take, h, ← List.map_take]

theorem counts_getD (R S : List (GazeEventTypeEnum × ℕ))
    (h : R.map (·.2) = S.map (·.2)) (i : ℕ) :
    (R.getD i (.UNDEFINED, 0)).2 = (S.getD i (.UNDEFINED, 0)).2 := by
  have h2 : R[i]?.map (·.2) = S[i]?.map (·.2) := by
    rw [← List.getElem?_map, h, List.getElem?_map]
  rw [List.getD_eq_getElem?_getD, List.getD_eq_getElem?_getD]
  cases hR : R[i]? with
  | none =>
    rw [hR] at h2
    cases hS : S[i]? with
    | none => rfl
    | some sp => rw [hS] at h2; exact absurd h2 (by simp)
  | some rp =>
    rw [hR] at h2
    cases hS : S[i]? with
    | none => rw [hS] at h2; exact absurd h2 (by simp)
    | some sp =>
      rw [hS] at h2
      simp only [Option.map_some'] at h2
      simp only [Option.getD_some]
      exact Option.some.inj h2

theorem idxChunks_getD_at (R S : List (GazeEventTypeEnum × ℕ))
    (h : R.map (·.2) = S.map (·.2)) (i : ℕ) (hi : i < S.length) :
    (idxChunks 0 R).getD i [] =
      List.range' (sumCounts (S.take i)) ((S.getD i (.UNDEFINED, 0)).2) := by
  have hlen : R.length = S.length := by
    have hl := congrArg List.length h
    simpa using hl
  rw [idxChunks_getD R 0 i (by omega), Nat.zero_add]
  rw [counts_take R S h i, counts_getD R S h i]

theorem getD_append_offset (Q X : List (GazeEventTypeEnum × ℕ)) (m : ℕ) :
    (Q ++ X).getD (Q.length + m) (.UNDEFINED, 0) = X.getD m (.UNDEFINED, 0) := by
  rw [List.getD_eq_getElem?_getD, List.getD_eq_getElem?_getD,
    List.getElem?_append_right (by omega), Nat.add_sub_cancel_left]

theorem mergeStep_skip (minS : ℤ) (allow : List GazeEventTypeEnum)
    (chunks : List (List ℕ)) (acc : List GazeEventTypeEnum) (i : ℕ)
    (h0 : i = 0 ∨ i = chunks.length - 1) :
    mergeStep minS allow chunks acc i = acc := by
  unfold mergeStep
  rw [if_pos h0]

theorem mergeStep_eq (minS : ℤ) (allow : List GazeEventTypeEnum) (chunks : List (List ℕ))
    (acc : List GazeEventTypeEnum) (i : ℕ) (h0 : ¬(i = 0 ∨ i = chunks.length - 1)) :
    mergeStep minS allow chunks acc i =
      if minS ≤ ((chunks.getD i []).length : ℤ) then acc
      else if acc.getD ((chunks.getD i []).headD 0) .UNDEFINED ∈ allow then acc
      else if acc.getD ((chunks.getD (i - 1) []).headD 0) .UNDEFINED ≠
              acc.getD ((chunks.getD (i + 1) []).headD 0) .UNDEFINED then acc
      else setIndices acc (chunks.getD i [])
             (acc.getD ((chunks.getD (i - 1) []).headD 0) .UNDEFINED) := by
  unfold mergeStep
  rw [if_neg h0]

theorem setIndices_decode (P : List (GazeEventTypeEnum × ℕ)) (l v : GazeEventTypeEnum)
    (k : ℕ) (X : List (GazeEventTypeEnum × ℕ)) :
    setIndices (decodeRuns (P ++ (l, k) :: X)) (List.range' (sumCounts P) k) v =
      decodeRuns (P ++ (v, k) :: X) := by
  rw [decode_append, decode_append, decode_cons, decode_cons]
  rw [← List.append_assoc, ← List.append_assoc]
  rw [show sumCounts P = (decodeRuns P).length from (length_decode P).symm]
  exact setIndices_range' k _ _ _ _ (List.length_replicate k l)

theorem merge_fold_gen (minS : ℤ) (allow : List GazeEventTypeEnum)
    (R : List (GazeEventTypeEnum × ℕ)) :
    ∀ (L Q : List (GazeEventTypeEnum × ℕ)) (prev : GazeEventTypeEnum) (kp : ℕ),
      0 < kp →
      (∀ p ∈ L, 0 < p.2) →
      R.map (·.2) = (Q ++ (prev, kp) :: L).map (·.2) →
      (List.range' (Q.length + 1) L.length).foldl
        (mergeStep minS allow (idxChunks 0 R))
        (decodeRuns (Q ++ (prev, kp) :: L)) =
      decodeRuns (Q ++ (prev, kp) :: mergeRunsGo minS allow prev L) := by
  intro L
  induction L with
  | nil =>
    intro Q prev kp _ _ _
    rfl
  | cons p L' ih =>
    intro Q prev kp hkp hLpos hcounts
    obtain ⟨l, k⟩ := p
    have hk : 0 < k := hLpos (l, k) (List.mem_cons_self _ _)
    have hclen : (idxChunks 0 R).length = R.length := idxChunks_length R 0
    cases L' with
    | nil =>
      have hRlen : R.length = Q.length + 2 := by
        have h := congrArg List.length hcounts
        simp at h
        omega
      rw [show ([(l, k)] : List (GazeEventTypeEnum × ℕ)).length = 1 from rfl,
        List.range'_one, List.foldl_cons, List.foldl_nil]
      rw [mergeStep_skip _ _ _ _ _ (Or.inr (by omega))]
      rw [mergeRunsGo_last]
    | cons p₂ L'' =>
      obtain ⟨l₂, k₂⟩ := p₂
      have hk₂ : 0 < k₂ := hLpos (l₂, k₂) (List.mem_cons_of_mem _ (List.mem_cons_self _ _))
      have hRlen : R.length = Q.length + L''.length + 3 := by
        have h := congrArg List.length hcounts
        simp at h
        omega
      have hSlen : (Q ++ (prev, kp) :: (l, k) :: (l₂, k₂) :: L'').length =
          Q.length + (L''.length + 3) := by
        rw [List.length_append, List.length_cons, List.length_cons, List.length_cons]
      have hmidc : (idxChunks 0 R).getD (Q.length + 1) [] =
          List.range' (sumCounts Q + kp) k := by
        rw [idxChunks_getD_at R _ hcounts (Q.length + 1) (by rw [hSlen]; omega)]
        congr 1
        · rw [List.take_append 1,
            show ((prev, kp) :: (l, k) :: (l₂, k₂) :: L'').take 1 = [(prev, kp)] from rfl,
            sumCounts_append, sumCounts_singleton]
        · rw [getD_append_offset Q _ 1]
          rfl
      have hleftc : (idxChunks 0 R).getD Q.length [] =
          List.range' (sumCounts Q) kp := by
        rw [idxChunks_getD_at R _ hcounts Q.length (by rw [hSlen]; omega)]
        congr 1
        · rw [List.take_left]
        · rw [show (Q.length : ℕ) = Q.length + 0 from rfl, getD_append_offset Q _ 0]
          rfl
      have hrightc : (idxChunks 0 R).getD (Q.length + 1 + 1) [] =
          List.range' (sumCounts Q + kp + k) k₂ := by
        rw [idxChunks_getD_at R _ hcounts (Q.length + 1 + 1) (by rw [hSlen]; omega)]
        congr 1
        · rw [show Q.length + 1 + 1 = Q.length + 2 from rfl, List.take_append 2,
            show ((prev, kp) :: (l, k) :: (l₂, k₂) :: L'').take 2 =
              [(prev, kp), (l, k)] from rfl,
            sumCounts_append, sumCounts_cons, sumCounts_singleton]
          omega
        · rw [show Q.length + 1 + 1 = Q.length + 2 from rfl, getD_append_offset Q _ 2]
          rfl
      have hlv : (decodeRuns (Q ++ (prev, kp) :: (l, k) :: (l₂, k₂) :: L'')).getD
          (sumCounts Q) .UNDEFINED = prev :=
        decode_getD_run_start Q prev kp _ _ hkp
      have hmv : (decodeRuns (Q ++ (prev, kp) :: (l, k) :: (l₂, k₂) :: L'')).getD
          (sumCounts Q + kp) .UNDEFINED = l := by
        rw [show Q ++ (prev, kp) :: (l, k) :: (l₂, k₂) :: L'' =
            (Q ++ [(prev, kp)]) ++ (l, k) :: (l₂, k₂) :: L'' from by simp]
        rw [show sumCounts Q + kp = sumCounts (Q ++ [(prev, kp)]) from by
          rw [sumCounts_append, sumCounts_singleton]]
        exact decode_getD_run_start _ l k _ _ hk
      have hrv : (decodeRuns (Q ++ (prev, kp) :: (l, k) :: (l₂, k₂) :: L'')).getD
          (sumCounts Q + kp + k) .UNDEFINED = l₂ := by
        rw [show Q ++ (prev, kp) :: (l, k) :: (l₂, k₂) :: L'' =
            ((Q ++ [(prev, kp)]) ++ [(l, k)]) ++ (l₂, k₂) :: L'' from by simp]
        rw [show sumCounts Q + kp + k = sumCounts ((Q ++ [(prev, kp)]) ++ [(l, k)]) from by
          rw [sumCounts_append, sumCounts_append, sumCounts_singleton, sumCounts_singleton]]
        exact decode_getD_run_start _ l₂ k₂ _ _ hk₂
      have hcont : ∀ lNew : GazeEventTypeEnum,
          (List.range' (Q.length + 1 + 1) ((l₂, k₂) :: L'').length).foldl
            (mergeStep minS allow (idxChunks 0 R))
            (decodeRuns (Q ++ (prev, kp) :: (lNew, k) :: (l₂, k₂) :: L'')) =
          decodeRuns (Q ++ (prev, kp) :: (lNew, k) ::
            mergeRunsGo minS allow lNew ((l₂, k₂) :: L'')) := by
        intro lNew
        rw [show Q ++ (prev, kp) :: (lNew, k) :: (l₂, k₂) :: L'' =
            (Q ++ [(prev, kp)]) ++ (lNew, k) :: (l₂, k₂) :: L'' from by simp]
        rw [show Q ++ (prev, kp) :: (lNew, k) ::
              mergeRunsGo minS allow lNew ((l₂, k₂) :: L'') =
            (Q ++ [(prev, kp)]) ++ (lNew, k) ::
              mergeRunsGo minS allow lNew ((l₂, k₂) :: L'') from by simp]
        rw [show Q.length + 1 + 1 = (Q ++ [(prev, kp)]).length + 1 from by simp]
        exact ih (Q ++ [(prev, kp)]) lNew k hk
          (fun p hp => hLpos p (List.mem_cons_of_mem _ hp)) (by simpa using hcounts)
      rw [List.length_cons, List.range'_succ, List.foldl_cons]
      rw [mergeStep_eq minS allow _ _ _ (by rw [hclen]; omega)]
      rw [show Q.length + 1 - 1 = Q.length from by omega]
      rw [hmidc, hleftc, hrightc, List.length_range']
      rw [range'_headD (sumCounts Q + kp) k hk, range'_headD (sumCounts Q) kp hkp,
        range'_headD (sumCounts Q + kp + k) k₂ hk₂]
      rw [hlv, hmv, hrv]
      rw [mergeRunsGo_cons₂]
      by_cases hmerge : (k : ℤ) < minS ∧ l ∉ allow ∧ prev = l₂
      · obtain ⟨h1, h2, h3⟩ := hmerge
        rw [if_neg (by omega), if_neg h2, if_neg (not_not_intro h3)]
        have hset : setIndices (decodeRuns (Q ++ (prev, kp) :: (l, k) :: (l₂, k₂) :: L''))
            (List.range' (sumCounts Q + kp) k) prev =
            decodeRuns (Q ++ (prev, kp) :: (prev, k) :: (l₂, k₂) :: L'') := by
          rw [show Q ++ (prev, kp) :: (l, k) :: (l₂, k₂) :: L'' =
              (Q ++ [(prev, kp)]) ++ (l, k) :: (l₂, k₂) :: L'' from by simp,
            show Q ++ (prev, kp) :: (prev, k) :: (l₂, k₂) :: L'' =
              (Q ++ [(prev, kp)]) ++ (prev, k) :: (l₂, k₂) :: L'' from by simp,
            show sumCounts Q + kp = sumCounts (Q ++ [(prev, kp)]) from by
              rw [sumCounts_append, sumCounts_singleton]]
          exact setIndices_decode (Q ++ [(prev, kp)]) l prev k _
        rw [hset, if_pos ⟨h1, h2, h3⟩]
        exact hcont prev
      · rw [if_neg hmerge]
        by_cases h1 : minS ≤ (k : ℤ)
        · rw [if_pos h1]
          exact hcont l
        · rw [if_neg h1]
          by_cases h2 : l ∈ allow
          · rw [if_pos h2]
            exact hcont l
          · rw [if_neg h2]
            have h3 : prev ≠ l₂ := fun he => hmerge ⟨by omega, h2, he⟩
            rw [if_pos h3]
            exact hcont l

theorem merge_nil_arr (minS : ℤ) (allow : List GazeEventTypeEnum) :
    merge_proximal_chunks minS allow [] = [] := by
  show (List.range (get_chunk_indices ([] : List GazeEventTypeEnum)).length).foldl
    (mergeStep minS allow (get_chunk_indices ([] : List GazeEventTypeEnum))) [] = []
  have hc : get_chunk_indices ([] : List GazeEventTypeEnum) = [[]] := by
    unfold get_chunk_indices
    rw [show split_points ([] : List GazeEventTypeEnum) = [] from rfl,
      show List.range (List.length ([] : List GazeEventTypeEnum)) = [] from rfl,
      np_split_nil]
  rw [hc]
  rw [show List.range ([[]] : List (List ℕ)).length = [0] from rfl]
  rw [List.foldl_cons, List.foldl_nil]
  exact mergeStep_skip _ _ _ _ _ (Or.inl rfl)

/-- C5 (amended): `_merge_proximal_chunks_of_identical_values` equals the
left-to-right recursion on the run-length encoding of the original array in
which a short, non-exempt middle run is overwritten exactly when the final
(possibly already merged) label of its left neighbour equals the original
label of its right neighbour, receiving that shared label — the left
neighbour's label is read from the partially updated copy, not from the
original array. -/
theorem C5_merge_matches_rle_recursion (minS : ℤ) (allow : List GazeEventTypeEnum)
    (arr : List GazeEventTypeEnum) :
    merge_proximal_chunks minS allow arr =
      decodeRuns (mergeRunsRLE minS allow (runs arr)) := by
  cases arr with
  | nil => exact merge_nil_arr minS allow
  | cons a t =>
    show (List.range (get_chunk_indices (a :: t)).length).foldl
      (mergeStep minS allow (get_chunk_indices (a :: t))) (a :: t) =
      decodeRuns (mergeRunsRLE minS allow (runs (a :: t)))
    rw [get_chunk_indices_eq (a :: t) (by simp)]
    obtain ⟨k, rs, hr, hk⟩ := runs_cons_head a t
    rw [hr]
    rw [idxChunks_length, List.length_cons, List.range_eq_range', List.range'_succ,
      List.foldl_cons]
    rw [mergeStep_skip _ _ _ _ _ (Or.inl rfl)]
    rw [show a :: t = decodeRuns ([] ++ (a, k) :: rs) from by
      rw [List.nil_append, ← hr, decode_runs]]
    exact merge_fold_gen minS allow ((a, k) :: rs) rs [] a k hk
      (fun p hp => runs_pos (a :: t) p (hr ▸ List.mem_cons_of_mem _ hp))
      (by rw [List.nil_append])
